import Mathlib

/-!
Shallow embedding of the `transcipt` ink! contract (src/lib.rs).

Each `#[ink(message)]` method becomes a Lean function taking the pre-state
and the caller explicitly.  The ink `Mapping` type is embedded as a function
into `Option`; `Mapping::insert` and `Mapping::take` become pointwise
updates.  A Rust `Vec` push is `++ [x]`; `iter().position` followed by
`remove(index)` is `List.erase` (remove the first occurrence, or nothing
when absent).  A `.unwrap()` on a missing mapping entry panics in Rust and
traps the call; commands that can trap return `Option`, with `none` as the
trap outcome, in which case the host reverts the state.
-/

namespace Transcript

/-- Account identifiers are opaque comparable values; we embed them as `Nat`. -/
abbrev AccountId := Nat

/-- Class names are strings in the source. -/
abbrev ClassName := String

/-- The contract's error type (src/lib.rs lines 12-15). -/
inductive Error where
  | InvalidInput
  | AccessNotAllowed
deriving DecidableEq, Repr

/-- An ink `Mapping` embedded as a function into `Option`. -/
def StoreMap (K V : Type) := K → Option V

/-- Mapping::insert - overwrite the value stored at a key. -/
def mapInsert {K V : Type} [DecidableEq K] (m : StoreMap K V) (k : K) (v : V) :
    StoreMap K V :=
  fun x => if x = k then some v else m x

/-- Mapping::take used for deletion - remove the entry stored at a key. -/
def mapTake {K V : Type} [DecidableEq K] (m : StoreMap K V) (k : K) :
    StoreMap K V :=
  fun x => if x = k then none else m x

/-- The contract storage (src/lib.rs lines 24-38). -/
structure Transcipt where
  accessstudents : StoreMap AccountId (List AccountId)
  students : List AccountId
  teachers : List AccountId
  admins : List AccountId
  class_list : List ClassName
  grades : StoreMap (AccountId × ClassName) (List Nat)
  classes : StoreMap ClassName (AccountId × List AccountId)

/-- Outcome of a mutating command: `none` models a panic (the call traps and
the host reverts); `some (r, st)` is a normal return `r` with post-state `st`. -/
abbrev CmdOut := Option (Except Error Unit × Transcipt)

/-- Constructor `new` (lines 42-67): empty stores, the deploying caller as
the single admin. -/
def Transcipt.new (caller : AccountId) : Transcipt where
  accessstudents := fun _ => none
  students := []
  teachers := []
  admins := [caller]
  class_list := []
  grades := fun _ => none
  classes := fun _ => none

/-- Message `add_teacher` (lines 71-86). -/
def add_teacher (st : Transcipt) (caller teacher_id : AccountId) : CmdOut :=
  if caller ∈ st.admins then
    if teacher_id ∉ st.teachers then
      some (Except.ok (), { st with teachers := st.teachers ++ [teacher_id] })
    else
      some (Except.error Error.InvalidInput, st)
  else
    some (Except.error Error.AccessNotAllowed, st)

/-- Message `add_student` (lines 89-105): appends the student and seeds the
access list with the student itself. -/
def add_student (st : Transcipt) (caller student_id : AccountId) : CmdOut :=
  if caller ∈ st.admins then
    if student_id ∉ st.students then
      some (Except.ok (), { st with
        students := st.students ++ [student_id],
        accessstudents := mapInsert st.accessstudents student_id [student_id] })
    else
      some (Except.error Error.InvalidInput, st)
  else
    some (Except.error Error.AccessNotAllowed, st)

/-- Message `add_admins` (lines 108-122). -/
def add_admins (st : Transcipt) (caller admin_id : AccountId) : CmdOut :=
  if caller ∈ st.admins then
    if admin_id ∉ st.admins then
      some (Except.ok (), { st with admins := st.admins ++ [admin_id] })
    else
      some (Except.error Error.InvalidInput, st)
  else
    some (Except.error Error.AccessNotAllowed, st)

/-- Message `add_classes` (lines 125-141). -/
def add_classes (st : Transcipt) (caller : AccountId) (class_name : ClassName)
    (teacher_id : AccountId) (student_ids : List AccountId) : CmdOut :=
  if caller ∈ st.admins then
    if teacher_id ∈ st.teachers ∧ (∀ x ∈ student_ids, x ∈ st.students) ∧
        class_name ∉ st.class_list then
      some (Except.ok (), { st with
        classes := mapInsert st.classes class_name (teacher_id, student_ids),
        class_list := st.class_list ++ [class_name] })
    else
      some (Except.error Error.InvalidInput, st)
  else
    some (Except.error Error.AccessNotAllowed, st)

/-- Message `add_score` (lines 144-163): the class lookup happens first and a
missing class is `InvalidInput`; then the caller must be the stored teacher
and the student must be on the roster, else `AccessNotAllowed`. -/
def add_score (st : Transcipt) (caller : AccountId) (class_name : ClassName)
    (student_id : AccountId) (grade : Nat) : CmdOut :=
  match st.classes class_name with
  | none => some (Except.error Error.InvalidInput, st)
  | some class_info =>
    if class_info.1 = caller ∧ student_id ∈ class_info.2 then
      some (Except.ok (), { st with
        grades := mapInsert st.grades (student_id, class_name)
          (((st.grades (student_id, class_name)).getD []) ++ [grade]) })
    else
      some (Except.error Error.AccessNotAllowed, st)

/-- Message `add_accessstudents` (lines 167-186): the membership test at line
172 unwraps the access entry, so a student with no entry makes the call trap. -/
def add_accessstudents (st : Transcipt)
    (caller student_id new_access_id : AccountId) : CmdOut :=
  if caller ∈ st.teachers ∨ caller ∈ st.admins ∨ caller = student_id then
    match st.accessstudents student_id with
    | none => none
    | some current =>
      if new_access_id ∉ current then
        some (Except.ok (), { st with
          accessstudents :=
            mapInsert st.accessstudents student_id (current ++ [new_access_id]) })
      else
        some (Except.error Error.InvalidInput, st)
  else
    some (Except.error Error.AccessNotAllowed, st)

/-- Message `access_grades` (lines 189-202): read-only query. -/
def access_grades (st : Transcipt) (caller : AccountId) (class_name : ClassName)
    (student_id : AccountId) : Except Error (List Nat) :=
  let has_access := (st.accessstudents student_id).getD []
  if caller ∈ st.teachers ∨ caller ∈ st.admins ∨ caller ∈ has_access then
    Except.ok ((st.grades (student_id, class_name)).getD [])
  else
    Except.error Error.AccessNotAllowed

/-- Message `remove_accessstudents` (lines 205-222): reads the entry with a
default, erases the first occurrence when present, and writes the result
back unconditionally. -/
def remove_accessstudents (st : Transcipt)
    (caller student_id remove_access_id : AccountId) : CmdOut :=
  if caller ∈ st.teachers ∨ caller ∈ st.admins then
    some (Except.ok (), { st with
      accessstudents := mapInsert st.accessstudents student_id
        (((st.accessstudents student_id).getD []).erase remove_access_id) })
  else
    some (Except.error Error.AccessNotAllowed, st)

/-- Message `remove_admins` (lines 224-235): demands an admin caller and at
least two admins, then erases the first occurrence of the target id. -/
def remove_admins (st : Transcipt) (caller admin_id : AccountId) : CmdOut :=
  if caller ∈ st.admins ∧ 2 ≤ st.admins.length then
    some (Except.ok (), { st with admins := st.admins.erase admin_id })
  else
    some (Except.error Error.AccessNotAllowed, st)

/-- Message `remove_classes` (lines 237-263): unwraps the class record (a
missing class traps), deletes each roster member's grade entry for the
class, deletes the record and erases the name from the active list. -/
def remove_classes (st : Transcipt) (caller : AccountId)
    (class_name : ClassName) : CmdOut :=
  if caller ∈ st.admins then
    match st.classes class_name with
    | none => none
    | some class_info =>
      some (Except.ok (), { st with
        grades := class_info.2.foldl
          (fun g student => mapTake g (student, class_name)) st.grades,
        classes := mapTake st.classes class_name,
        class_list := st.class_list.erase class_name })
  else
    some (Except.error Error.AccessNotAllowed, st)

/-- Message `unenroll_student` (lines 265-292): unwraps the class record (a
missing class traps), then requires the id to be a registered student on
the roster, erases it from the roster and deletes the grade entry. -/
def unenroll_student (st : Transcipt) (caller : AccountId)
    (class_name : ClassName) (student_id : AccountId) : CmdOut :=
  if caller ∈ st.admins then
    match st.classes class_name with
    | none => none
    | some class_info =>
      if student_id ∈ st.students ∧ student_id ∈ class_info.2 then
        some (Except.ok (), { st with
          classes := mapInsert st.classes class_name
            (class_info.1, class_info.2.erase student_id),
          grades := mapTake st.grades (student_id, class_name) })
      else
        some (Except.error Error.InvalidInput, st)
  else
    some (Except.error Error.AccessNotAllowed, st)

/-- Message `enroll_student` (lines 294-318): unwraps the class record (a
missing class traps), then requires a registered student not yet on the
roster, appends it and creates an empty grade entry. -/
def enroll_student (st : Transcipt) (caller : AccountId)
    (class_name : ClassName) (student_id : AccountId) : CmdOut :=
  if caller ∈ st.admins then
    match st.classes class_name with
    | none => none
    | some class_info =>
      if student_id ∈ st.students ∧ student_id ∉ class_info.2 then
        some (Except.ok (), { st with
          classes := mapInsert st.classes class_name
            (class_info.1, class_info.2 ++ [student_id]),
          grades := mapInsert st.grades (student_id, class_name) [] })
      else
        some (Except.error Error.InvalidInput, st)
  else
    some (Except.error Error.AccessNotAllowed, st)

/-- Message `change_teacher` (lines 321-345): checks the new teacher is
registered, then unwraps the class record (a missing class traps) and
replaces the stored teacher, keeping the roster. -/
def change_teacher (st : Transcipt) (caller : AccountId)
    (class_name : ClassName) (teacher_id : AccountId) : CmdOut :=
  if caller ∈ st.admins then
    if teacher_id ∈ st.teachers then
      match st.classes class_name with
      | none => none
      | some class_info =>
        some (Except.ok (), { st with
          classes := mapInsert st.classes class_name (teacher_id, class_info.2) })
    else
      some (Except.error Error.InvalidInput, st)
  else
    some (Except.error Error.AccessNotAllowed, st)

/-- Message `remove_teacher` (lines 347-364). -/
def remove_teacher (st : Transcipt) (caller teacher_id : AccountId) : CmdOut :=
  if caller ∈ st.admins then
    if teacher_id ∈ st.teachers then
      some (Except.ok (), { st with teachers := st.teachers.erase teacher_id })
    else
      some (Except.error Error.InvalidInput, st)
  else
    some (Except.error Error.AccessNotAllowed, st)

/-- First loop of `remove_student` (lines 373-380): walk the class list and
collect the classes whose roster holds the student; each class record is
unwrapped, so a dangling class-list entry traps. -/
def collectClasses (classes : StoreMap ClassName (AccountId × List AccountId))
    (student_id : AccountId) : List ClassName → Option (List ClassName)
  | [] => some []
  | c :: rest =>
    match classes c with
    | none => none
    | some class_info =>
      match collectClasses classes student_id rest with
      | none => none
      | some cs => some (if student_id ∈ class_info.2 then c :: cs else cs)

/-- Second loop of `remove_student` (lines 384-395): for each collected class
delete the grade entry and call `unenroll_student`, returning its error as
soon as one fails (prior iterations stay applied). -/
def cascade (caller student_id : AccountId) :
    List ClassName → Transcipt → CmdOut
  | [], st => some (Except.ok (), st)
  | c :: rest, st =>
    match unenroll_student
        { st with grades := mapTake st.grades (student_id, c) }
        caller c student_id with
    | none => none
    | some (Except.error e, st2) => some (Except.error e, st2)
    | some (Except.ok _, st2) => cascade caller student_id rest st2

/-- Message `remove_student` (lines 367-411). -/
def remove_student (st : Transcipt) (caller student_id : AccountId) : CmdOut :=
  if caller ∈ st.admins then
    if student_id ∈ st.students then
      match collectClasses st.classes student_id st.class_list with
      | none => none
      | some student_classes =>
        match cascade caller student_id student_classes st with
        | none => none
        | some (Except.error e, st2) => some (Except.error e, st2)
        | some (Except.ok _, st2) =>
          some (Except.ok (), { st2 with students := st2.students.erase student_id })
    else
      some (Except.error Error.InvalidInput, st)
  else
    some (Except.error Error.AccessNotAllowed, st)

/-- One contract call: the calling account together with the message and its
arguments. -/
inductive Cmd where
  | addTeacher (caller id : AccountId)
  | addStudent (caller id : AccountId)
  | addAdmins (caller id : AccountId)
  | addClasses (caller : AccountId) (name : ClassName) (t : AccountId)
      (ss : List AccountId)
  | addScore (caller : AccountId) (name : ClassName) (s : AccountId) (g : Nat)
  | addAccess (caller s g : AccountId)
  | removeAccess (caller s g : AccountId)
  | removeAdmins (caller id : AccountId)
  | removeClasses (caller : AccountId) (name : ClassName)
  | unenrollStudent (caller : AccountId) (name : ClassName) (s : AccountId)
  | enrollStudent (caller : AccountId) (name : ClassName) (s : AccountId)
  | changeTeacher (caller : AccountId) (name : ClassName) (t : AccountId)
  | removeTeacher (caller id : AccountId)
  | removeStudent (caller id : AccountId)

/-- State after a call: a panic (`none`) reverts to the pre-state, otherwise
the command's post-state stands, whether it returned `Ok` or `Err`. -/
def outState (st : Transcipt) : CmdOut → Transcipt
  | none => st
  | some (_, st2) => st2

/-- Execute one call against a state. -/
def stepCmd (st : Transcipt) : Cmd → Transcipt
  | .addTeacher caller id => outState st (add_teacher st caller id)
  | .addStudent caller id => outState st (add_student st caller id)
  | .addAdmins caller id => outState st (add_admins st caller id)
  | .addClasses caller name t ss => outState st (add_classes st caller name t ss)
  | .addScore caller name s g => outState st (add_score st caller name s g)
  | .addAccess caller s g => outState st (add_accessstudents st caller s g)
  | .removeAccess caller s g => outState st (remove_accessstudents st caller s g)
  | .removeAdmins caller id => outState st (remove_admins st caller id)
  | .removeClasses caller name => outState st (remove_classes st caller name)
  | .unenrollStudent caller name s => outState st (unenroll_student st caller name s)
  | .enrollStudent caller name s => outState st (enroll_student st caller name s)
  | .changeTeacher caller name t => outState st (change_teacher st caller name t)
  | .removeTeacher caller id => outState st (remove_teacher st caller id)
  | .removeStudent caller id => outState st (remove_student st caller id)

/-- Execute a sequence of calls. -/
def runCmds (st : Transcipt) (cmds : List Cmd) : Transcipt :=
  cmds.foldl stepCmd st

/-! Pointwise behaviour of the mapping operations. -/

theorem mapInsert_self {K V : Type} [DecidableEq K] (m : StoreMap K V) (k : K)
    (v : V) : mapInsert m k v k = some v := by
  simp [mapInsert]

theorem mapInsert_of_ne {K V : Type} [DecidableEq K] (m : StoreMap K V)
    (k : K) (v : V) (x : K) (h : x ≠ k) : mapInsert m k v x = m x := by
  simp [mapInsert, h]

theorem mapTake_self {K V : Type} [DecidableEq K] (m : StoreMap K V) (k : K) :
    mapTake m k k = none := by
  simp [mapTake]

theorem mapTake_of_ne {K V : Type} [DecidableEq K] (m : StoreMap K V)
    (k : K) (x : K) (h : x ≠ k) : mapTake m k x = m x := by
  simp [mapTake, h]

/-- Pointwise value of the grade-deletion loop of `remove_classes`. -/
theorem foldTake_apply (cl : ClassName) (L : List AccountId)
    (g : StoreMap (AccountId × ClassName) (List Nat)) (s : AccountId)
    (x : ClassName) :
    (L.foldl (fun m student => mapTake m (student, cl)) g) (s, x) =
      if s ∈ L ∧ x = cl then none else g (s, x) := by
  induction L generalizing g with
  | nil => simp
  | cons a rest ih =>
    simp only [List.foldl_cons]
    rw [ih]
    by_cases hx : x = cl
    · subst hx
      by_cases hs : s ∈ rest
      · simp [hs]
      · by_cases hsa : s = a
        · subst hsa
          simp [hs, mapTake]
        · simp [hs, hsa, mapTake, Prod.ext_iff]
    · simp [hx, mapTake, Prod.ext_iff]

/-! Characterization of each command's possible post-states: either the
command left the state alone, or its success conditions held and the state
received the corresponding update. -/

theorem add_teacher_spec (st : Transcipt) (caller a : AccountId)
    (res : Except Error Unit) (st2 : Transcipt)
    (h : add_teacher st caller a = some (res, st2)) :
    st2 = st ∨ st2 = { st with teachers := st.teachers ++ [a] } := by
  unfold add_teacher at h
  split_ifs at h <;>
      simp only [Option.some.injEq, Prod.mk.injEq] at h <;>
    first
      | exact Or.inl h.2.symm
      | exact Or.inr h.2.symm

theorem add_student_spec (st : Transcipt) (caller a : AccountId)
    (res : Except Error Unit) (st2 : Transcipt)
    (h : add_student st caller a = some (res, st2)) :
    st2 = st ∨ st2 = ({ st with
      students := st.students ++ [a],
      accessstudents := (mapInsert st.accessstudents a [a]) }) := by
  unfold add_student at h
  split_ifs at h <;>
      simp only [Option.some.injEq, Prod.mk.injEq] at h <;>
    first
      | exact Or.inl h.2.symm
      | exact Or.inr h.2.symm

theorem add_admins_spec (st : Transcipt) (caller a : AccountId)
    (res : Except Error Unit) (st2 : Transcipt)
    (h : add_admins st caller a = some (res, st2)) :
    st2 = st ∨ st2 = { st with admins := st.admins ++ [a] } := by
  unfold add_admins at h
  split_ifs at h <;>
      simp only [Option.some.injEq, Prod.mk.injEq] at h <;>
    first
      | exact Or.inl h.2.symm
      | exact Or.inr h.2.symm

theorem add_classes_spec (st : Transcipt) (caller : AccountId) (c : ClassName)
    (a : AccountId) (ss : List AccountId) (res : Except Error Unit)
    (st2 : Transcipt) (h : add_classes st caller c a ss = some (res, st2)) :
    st2 = st ∨ (a ∈ st.teachers ∧ (∀ x ∈ ss, x ∈ st.students) ∧
      c ∉ st.class_list ∧
      st2 = ({ st with
        classes := (mapInsert st.classes c (a, ss)),
        class_list := st.class_list ++ [c] })) := by
  unfold add_classes at h
  split_ifs at h with h1 h2 <;>
      simp only [Option.some.injEq, Prod.mk.injEq] at h <;>
    first
      | exact Or.inl h.2.symm
      | exact Or.inr ⟨h2.1, h2.2.1, h2.2.2, h.2.symm⟩

theorem add_score_spec (st : Transcipt) (caller : AccountId) (c : ClassName)
    (s : AccountId) (g : Nat) (res : Except Error Unit) (st2 : Transcipt)
    (h : add_score st caller c s g = some (res, st2)) :
    st2 = st ∨ (∃ t r, st.classes c = some (t, r) ∧ t = caller ∧ s ∈ r ∧
      res = Except.ok () ∧
      st2 = { st with grades := (mapInsert st.grades (s, c)
        (((st.grades (s, c)).getD []) ++ [g])) }) := by
  unfold add_score at h
  split at h
  · simp only [Option.some.injEq, Prod.mk.injEq] at h
    exact Or.inl h.2.symm
  · rename_i class_info hcl
    split_ifs at h with hcond
    · simp only [Option.some.injEq, Prod.mk.injEq] at h
      exact Or.inr ⟨class_info.1, class_info.2, by rw [hcl], hcond.1, hcond.2,
        h.1.symm, h.2.symm⟩
    · simp only [Option.some.injEq, Prod.mk.injEq] at h
      exact Or.inl h.2.symm

theorem add_accessstudents_spec (st : Transcipt) (caller s g : AccountId)
    (res : Except Error Unit) (st2 : Transcipt)
    (h : add_accessstudents st caller s g = some (res, st2)) :
    st2 = st ∨ (∃ cur, st.accessstudents s = some cur ∧ g ∉ cur ∧
      st2 = { st with
        accessstudents := (mapInsert st.accessstudents s (cur ++ [g])) }) := by
  unfold add_accessstudents at h
  split_ifs at h with h1
  · split at h
    · exact Option.noConfusion h
    · rename_i cur hcur
      split_ifs at h with h2 <;>
          simp only [Option.some.injEq, Prod.mk.injEq] at h <;>
        first
          | exact Or.inl h.2.symm
          | exact Or.inr ⟨cur, hcur, h2, h.2.symm⟩
  · simp only [Option.some.injEq, Prod.mk.injEq] at h
    exact Or.inl h.2.symm

theorem remove_accessstudents_spec (st : Transcipt) (caller s g : AccountId)
    (res : Except Error Unit) (st2 : Transcipt)
    (h : remove_accessstudents st caller s g = some (res, st2)) :
    st2 = st ∨ st2 = { st with accessstudents := (mapInsert st.accessstudents s
      (((st.accessstudents s).getD []).erase g)) } := by
  unfold remove_accessstudents at h
  split_ifs at h <;>
      simp only [Option.some.injEq, Prod.mk.injEq] at h <;>
    first
      | exact Or.inl h.2.symm
      | exact Or.inr h.2.symm

theorem remove_admins_spec (st : Transcipt) (caller a : AccountId)
    (res : Except Error Unit) (st2 : Transcipt)
    (h : remove_admins st caller a = some (res, st2)) :
    st2 = st ∨ (2 ≤ st.admins.length ∧
      st2 = { st with admins := st.admins.erase a }) := by
  unfold remove_admins at h
  split_ifs at h with h1 <;>
      simp only [Option.some.injEq, Prod.mk.injEq] at h <;>
    first
      | exact Or.inl h.2.symm
      | exact Or.inr ⟨h1.2, h.2.symm⟩

theorem remove_classes_spec (st : Transcipt) (caller : AccountId)
    (c : ClassName) (res : Except Error Unit) (st2 : Transcipt)
    (h : remove_classes st caller c = some (res, st2)) :
    (res = Except.error Error.AccessNotAllowed ∧ st2 = st) ∨
    (∃ t r, st.classes c = some (t, r) ∧
      st2 = ({ st with
        grades := (r.foldl (fun g student => mapTake g (student, c)) st.grades),
        classes := (mapTake st.classes c),
        class_list := st.class_list.erase c })) := by
  unfold remove_classes at h
  split_ifs at h with h1
  · split at h
    · exact Option.noConfusion h
    · rename_i class_info hcl
      simp only [Option.some.injEq, Prod.mk.injEq] at h
      exact Or.inr ⟨class_info.1, class_info.2, by rw [hcl], h.2.symm⟩
  · simp only [Option.some.injEq, Prod.mk.injEq] at h
    exact Or.inl ⟨h.1.symm, h.2.symm⟩

theorem unenroll_student_spec (st : Transcipt) (caller : AccountId)
    (c : ClassName) (s : AccountId) (res : Except Error Unit) (st2 : Transcipt)
    (h : unenroll_student st caller c s = some (res, st2)) :
    ((res = Except.error Error.InvalidInput ∨
      res = Except.error Error.AccessNotAllowed) ∧ st2 = st) ∨
    (∃ t r, st.classes c = some (t, r) ∧ s ∈ st.students ∧
      s ∈ r ∧ res = Except.ok () ∧
      st2 = ({ st with
        classes := (mapInsert st.classes c (t, r.erase s)),
        grades := (mapTake st.grades (s, c)) })) := by
  unfold unenroll_student at h
  split_ifs at h with h1
  · split at h
    · exact Option.noConfusion h
    · rename_i class_info hcl
      split_ifs at h with h2
      · simp only [Option.some.injEq, Prod.mk.injEq] at h
        exact Or.inr ⟨class_info.1, class_info.2, by rw [hcl], h2.1, h2.2,
          h.1.symm, h.2.symm⟩
      · simp only [Option.some.injEq, Prod.mk.injEq] at h
        exact Or.inl ⟨Or.inl h.1.symm, h.2.symm⟩
  · simp only [Option.some.injEq, Prod.mk.injEq] at h
    exact Or.inl ⟨Or.inr h.1.symm, h.2.symm⟩

theorem enroll_student_spec (st : Transcipt) (caller : AccountId)
    (c : ClassName) (s : AccountId) (res : Except Error Unit) (st2 : Transcipt)
    (h : enroll_student st caller c s = some (res, st2)) :
    st2 = st ∨ (∃ t r, st.classes c = some (t, r) ∧ s ∈ st.students ∧
      s ∉ r ∧
      st2 = ({ st with
        classes := (mapInsert st.classes c (t, r ++ [s])),
        grades := (mapInsert st.grades (s, c) []) })) := by
  unfold enroll_student at h
  split_ifs at h with h1
  · split at h
    · exact Option.noConfusion h
    · rename_i class_info hcl
      split_ifs at h with h2
      · simp only [Option.some.injEq, Prod.mk.injEq] at h
        exact Or.inr ⟨class_info.1, class_info.2, by rw [hcl], h2.1, h2.2,
          h.2.symm⟩
      · simp only [Option.some.injEq, Prod.mk.injEq] at h
        exact Or.inl h.2.symm
  · simp only [Option.some.injEq, Prod.mk.injEq] at h
    exact Or.inl h.2.symm

theorem change_teacher_spec (st : Transcipt) (caller : AccountId)
    (c : ClassName) (t : AccountId) (res : Except Error Unit) (st2 : Transcipt)
    (h : change_teacher st caller c t = some (res, st2)) :
    st2 = st ∨ (∃ t0 r, st.classes c = some (t0, r) ∧ t ∈ st.teachers ∧
      st2 = { st with classes := (mapInsert st.classes c (t, r)) }) := by
  unfold change_teacher at h
  split_ifs at h with h1 h2
  · split at h
    · exact Option.noConfusion h
    · rename_i class_info hcl
      simp only [Option.some.injEq, Prod.mk.injEq] at h
      exact Or.inr ⟨class_info.1, class_info.2, by rw [hcl], h2, h.2.symm⟩
  · simp only [Option.some.injEq, Prod.mk.injEq] at h
    exact Or.inl h.2.symm
  · simp only [Option.some.injEq, Prod.mk.injEq] at h
    exact Or.inl h.2.symm

theorem remove_teacher_spec (st : Transcipt) (caller a : AccountId)
    (res : Except Error Unit) (st2 : Transcipt)
    (h : remove_teacher st caller a = some (res, st2)) :
    st2 = st ∨ st2 = { st with teachers := st.teachers.erase a } := by
  unfold remove_teacher at h
  split_ifs at h <;>
      simp only [Option.some.injEq, Prod.mk.injEq] at h <;>
    first
      | exact Or.inl h.2.symm
      | exact Or.inr h.2.symm

/-! Small concrete states used to instantiate the theorems. -/

/-- State after deployment by account 0 and `add_student(2)`. -/
def sampleStudentState : Transcipt :=
  runCmds (Transcipt.new 0) [Cmd.addStudent 0 2]

/-- State after deployment by account 0 and `add_teacher(1)`. -/
def sampleTeacherState : Transcipt :=
  runCmds (Transcipt.new 0) [Cmd.addTeacher 0 1]

/-- State after deployment by account 0, `add_teacher(1)`, `add_student(2)`
and `add_classes("C", 1, [2])`. -/
def sampleClassState : Transcipt :=
  runCmds (Transcipt.new 0)
    [Cmd.addTeacher 0 1, Cmd.addStudent 0 2, Cmd.addClasses 0 "C" 1 [2]]

/-- C5: `add_score(class, student, value)` returns InvalidInput when the
class does not exist; returns AccessNotAllowed, state untouched, when the
caller is not the stored teacher or the student is not on the roster; and
otherwise returns Ok, appending the value at the end of the (student, class)
sequence (created empty when absent) and leaving everything else unchanged. -/
theorem c5_add_score_contract (st : Transcipt) (caller : AccountId)
    (c : ClassName) (s : AccountId) (g : Nat) :
    (st.classes c = none →
      add_score st caller c s g = some (Except.error Error.InvalidInput, st)) ∧
    (∀ t r, st.classes c = some (t, r) → (caller ≠ t ∨ s ∉ r) →
      add_score st caller c s g =
        some (Except.error Error.AccessNotAllowed, st)) ∧
    (∀ t r, st.classes c = some (t, r) → caller = t → s ∈ r →
      add_score st caller c s g = some (Except.ok (), ({ st with
        grades := (mapInsert st.grades (s, c)
          (((st.grades (s, c)).getD []) ++ [g])) }))) := by
  refine ⟨?_, ?_, ?_⟩
  · intro h
    simp [add_score, h]
  · intro t r hcl hor
    have hcond : ¬ (t = caller ∧ s ∈ r) := by
      intro hc
      rcases hor with h1 | h2
      · exact h1 hc.1.symm
      · exact h2 hc.2
    simp [add_score, hcl, hcond]
  · intro t r hcl hc hs
    subst hc
    simp [add_score, hcl, hs]

/-- C5 witness: in the sample state, teacher 1 records a 7 for student 2 in
class "C". -/
theorem c5_add_score_contract_witness :
    add_score sampleClassState 1 "C" 2 7 =
      some (Except.ok (), ({ sampleClassState with
        grades := (mapInsert sampleClassState.grades (2, "C")
          (((sampleClassState.grades (2, "C")).getD []) ++ [7])) })) :=
  (c5_add_score_contract sampleClassState 1 "C" 2 7).2.2 1 [2] (by decide)
    rfl (by decide)

/-- C6: for an authorized caller (teacher, admin, or the student itself),
`add_accessstudents` returns InvalidInput when the grantee is already in the
student's grant set, and when the student has no grant set at all the
unwrapped lookup makes the call trap (`none`) instead of defaulting to an
empty set. -/
theorem c6_add_access_missing_entry (st : Transcipt) (caller s g : AccountId)
    (hauth : caller ∈ st.teachers ∨ caller ∈ st.admins ∨ caller = s) :
    (∀ l, st.accessstudents s = some l → g ∈ l →
      add_accessstudents st caller s g =
        some (Except.error Error.InvalidInput, st)) ∧
    (st.accessstudents s = none → add_accessstudents st caller s g = none) := by
  constructor
  · intro l hl hg
    unfold add_accessstudents
    rw [if_pos hauth, hl]
    simp [hg]
  · intro hn
    unfold add_accessstudents
    rw [if_pos hauth, hn]

/-- C6 witness: admin 0 granting 2 access to student 2's grades, with 2
already present in the seeded grant set. -/
theorem c6_add_access_missing_entry_witness :
    add_accessstudents sampleStudentState 0 2 2 =
      some (Except.error Error.InvalidInput, sampleStudentState) :=
  (c6_add_access_missing_entry sampleStudentState 0 2 2
    (Or.inr (Or.inl (by decide)))).1 [2] rfl (by decide)

/-- C7: immediately after `add_student(a)` returns Ok, the grant set of `a`
is exactly `[a]`, and `access_grades(c, a)` called by `a` returns Ok for
every class `c`, yielding the stored sequence with default `[]`. -/
theorem c7_add_student_access (st : Transcipt) (caller a : AccountId)
    (st2 : Transcipt) (h : add_student st caller a = some (Except.ok (), st2)) :
    st2.accessstudents a = some [a] ∧
    ∀ c, access_grades st2 a c a =
      Except.ok ((st2.grades (a, c)).getD []) := by
  unfold add_student at h
  by_cases h1 : caller ∈ st.admins
  · rw [if_pos h1] at h
    by_cases h2 : a ∉ st.students
    · rw [if_pos h2] at h
      simp only [Option.some.injEq, Prod.mk.injEq] at h
      obtain ⟨-, hst⟩ := h
      subst hst
      constructor
      · simp [mapInsert]
      · intro c
        simp [access_grades, mapInsert]
    · rw [if_neg h2] at h
      simp at h
  · rw [if_neg h1] at h
    simp at h

/-- C7 state witness: account 7 added as a student by admin 0. -/
def c7state : Transcipt :=
  outState (Transcipt.new 0) (add_student (Transcipt.new 0) 0 7)

/-- C7 witness: after `add_student(7)` the grant set of 7 is `[7]`. -/
theorem c7_add_student_access_witness : c7state.accessstudents 7 = some [7] :=
  (c7_add_student_access (Transcipt.new 0) 0 7 c7state rfl).1

/-- C8 state: effect of `remove_accessstudents(5, 9)` by admin 0 on the
fresh contract, where student 5 has no grant entry. -/
def c8state : Transcipt :=
  outState (Transcipt.new 0) (remove_accessstudents (Transcipt.new 0) 0 5 9)

/-- C8 counterexample: removing a grantee from a student with no grant
entry succeeds but materializes an empty entry for the student, so the
accessstudents mapping does not keep the entry absent as the claim states. -/
theorem c8_counterexample :
    (Transcipt.new 0).accessstudents 5 = none ∧
    remove_accessstudents (Transcipt.new 0) 0 5 9 =
      some (Except.ok (), c8state) ∧
    c8state.accessstudents 5 = some [] :=
  ⟨rfl, rfl, rfl⟩

/-- C8 amended: for a teacher or admin caller, `remove_accessstudents`
always returns Ok, writing back the entry with the first occurrence of the
grantee erased; when the grantee is absent and the student has an entry the
whole state is unchanged, and when the student has no entry the command
creates an empty entry (all else unchanged). -/
theorem c8_remove_access_amended (st : Transcipt) (caller s g : AccountId)
    (hauth : caller ∈ st.teachers ∨ caller ∈ st.admins) :
    remove_accessstudents st caller s g = some (Except.ok (), ({ st with
      accessstudents := (mapInsert st.accessstudents s
        (((st.accessstudents s).getD []).erase g)) })) ∧
    (∀ l, st.accessstudents s = some l → g ∉ l →
      remove_accessstudents st caller s g = some (Except.ok (), st)) ∧
    (st.accessstudents s = none →
      remove_accessstudents st caller s g = some (Except.ok (), ({ st with
        accessstudents := (mapInsert st.accessstudents s []) }))) := by
  refine ⟨?_, ?_, ?_⟩
  · unfold remove_accessstudents
    rw [if_pos hauth]
  · intro l hl hg
    have hm : mapInsert st.accessstudents s
        (((st.accessstudents s).getD []).erase g) = st.accessstudents := by
      funext x
      by_cases hx : x = s
      · subst hx
        rw [mapInsert_self, hl]
        simp [List.erase_of_not_mem hg]
      · exact mapInsert_of_ne _ _ _ _ hx
    unfold remove_accessstudents
    rw [if_pos hauth, hm]
  · intro hn
    unfold remove_accessstudents
    rw [if_pos hauth, hn]
    simp

/-- C8 witness: admin 0 removing the non-granted account 9 from student 2's
grant set leaves the state exactly as it was. -/
theorem c8_remove_access_amended_witness :
    remove_accessstudents sampleStudentState 0 2 9 =
      some (Except.ok (), sampleStudentState) :=
  (c8_remove_access_amended sampleStudentState 0 2 9
    (Or.inr (by decide))).2.1 [2] rfl (by decide)

/-- C9 counterexample: admin 0 calling `remove_classes` on the fresh
contract with the unknown class "X" traps (the unwrap panics) instead of
returning an error result. -/
theorem c9_counterexample :
    0 ∈ (Transcipt.new 0).admins ∧ (Transcipt.new 0).classes "X" = none ∧
    remove_classes (Transcipt.new 0) 0 "X" = none :=
  ⟨by decide, rfl, rfl⟩

/-- C9 amended: for an admin caller and a name denoting no class,
`remove_classes` traps (models the panicking unwrap) rather than returning
an error result; the class lookup is still the first step after the
capability check, since a non-admin caller gets AccessNotAllowed even for a
missing class. -/
theorem c9_remove_classes_amended (st : Transcipt) (caller : AccountId)
    (c : ClassName) :
    (caller ∈ st.admins → st.classes c = none →
      remove_classes st caller c = none) ∧
    (caller ∉ st.admins →
      remove_classes st caller c =
        some (Except.error Error.AccessNotAllowed, st)) := by
  constructor
  · intro h1 h2
    unfold remove_classes
    rw [if_pos h1, h2]
  · intro h1
    unfold remove_classes
    rw [if_neg h1]

/-- C9 witness: the amended behaviour on the fresh contract. -/
theorem c9_remove_classes_amended_witness :
    remove_classes (Transcipt.new 0) 0 "X" = none :=
  (c9_remove_classes_amended (Transcipt.new 0) 0 "X").1 (by decide) rfl

/-- C10: for an admin caller and a class name with no record,
`enroll_student` and `unenroll_student` trap, and `change_teacher` traps
when the new teacher is registered: the missing-class branch panics at the
public interface instead of returning InvalidInput or AccessNotAllowed. -/
theorem c10_missing_class_traps (st : Transcipt) (caller : AccountId)
    (c : ClassName) (t s : AccountId) (hadm : caller ∈ st.admins)
    (hc : st.classes c = none) :
    enroll_student st caller c s = none ∧
    unenroll_student st caller c s = none ∧
    (t ∈ st.teachers → change_teacher st caller c t = none) := by
  refine ⟨?_, ?_, ?_⟩
  · unfold enroll_student
    rw [if_pos hadm, hc]
  · unfold unenroll_student
    rw [if_pos hadm, hc]
  · intro ht
    unfold change_teacher
    rw [if_pos hadm, if_pos ht, hc]

/-- C10 witness: the trap on the sample state with teacher 1 registered. -/
theorem c10_missing_class_traps_witness :
    enroll_student sampleTeacherState 0 "X" 2 = none :=
  (c10_missing_class_traps sampleTeacherState 0 "X" 1 2 (by decide) rfl).1


/-- C1 counterexample: on the fresh contract, account 5 holds no capability
at all, yet `add_score` on the unknown class "CS50" returns InvalidInput,
not AccessNotAllowed: the class lookup precedes the capability check. -/
theorem c1_counterexample :
    5 ∉ (Transcipt.new 0).teachers ∧ 5 ∉ (Transcipt.new 0).admins ∧
    add_score (Transcipt.new 0) 5 "CS50" 2 7 =
      some (Except.error Error.InvalidInput, Transcipt.new 0) ∧
    add_score (Transcipt.new 0) 5 "CS50" 2 7 ≠
      some (Except.error Error.AccessNotAllowed, Transcipt.new 0) := by
  refine ⟨by decide, by decide, rfl, ?_⟩
  intro hcontra
  rw [show add_score (Transcipt.new 0) 5 "CS50" 2 7 =
    some (Except.error Error.InvalidInput, Transcipt.new 0) from rfl] at hcontra
  simp at hcontra

/-- C1 amended: every command returns AccessNotAllowed and leaves the state
unchanged when the caller fails its capability check, except `add_score`,
whose class lookup runs first: with the class present a non-teacher caller
gets AccessNotAllowed with the state unchanged, but with the class absent
the command returns InvalidInput (state unchanged) for every caller.
`access_grades` reads the subject's grant set as part of its check. -/
theorem c1_capability_amended (st : Transcipt) (caller a b : AccountId)
    (c : ClassName) (g : Nat) (ss : List AccountId) :
    (caller ∉ st.admins →
      add_teacher st caller a = some (Except.error Error.AccessNotAllowed, st) ∧
      add_student st caller a = some (Except.error Error.AccessNotAllowed, st) ∧
      add_admins st caller a = some (Except.error Error.AccessNotAllowed, st) ∧
      add_classes st caller c a ss =
        some (Except.error Error.AccessNotAllowed, st) ∧
      remove_admins st caller a =
        some (Except.error Error.AccessNotAllowed, st) ∧
      remove_classes st caller c =
        some (Except.error Error.AccessNotAllowed, st) ∧
      unenroll_student st caller c a =
        some (Except.error Error.AccessNotAllowed, st) ∧
      enroll_student st caller c a =
        some (Except.error Error.AccessNotAllowed, st) ∧
      change_teacher st caller c a =
        some (Except.error Error.AccessNotAllowed, st) ∧
      remove_teacher st caller a =
        some (Except.error Error.AccessNotAllowed, st) ∧
      remove_student st caller a =
        some (Except.error Error.AccessNotAllowed, st)) ∧
    (caller ∉ st.teachers → caller ∉ st.admins → caller ≠ a →
      add_accessstudents st caller a b =
        some (Except.error Error.AccessNotAllowed, st)) ∧
    (caller ∉ st.teachers → caller ∉ st.admins →
      remove_accessstudents st caller a b =
        some (Except.error Error.AccessNotAllowed, st)) ∧
    (caller ∉ st.teachers → caller ∉ st.admins →
      caller ∉ (st.accessstudents a).getD [] →
      access_grades st caller c a = Except.error Error.AccessNotAllowed) ∧
    (∀ t r, st.classes c = some (t, r) → caller ≠ t →
      add_score st caller c a g =
        some (Except.error Error.AccessNotAllowed, st)) ∧
    (st.classes c = none →
      add_score st caller c a g =
        some (Except.error Error.InvalidInput, st)) := by
  refine ⟨?_, ?_, ?_, ?_, ?_, ?_⟩
  · intro h
    refine ⟨?_, ?_, ?_, ?_, ?_, ?_, ?_, ?_, ?_, ?_, ?_⟩ <;>
      simp [add_teacher, add_student, add_admins, add_classes, remove_admins,
        remove_classes, unenroll_student, enroll_student, change_teacher,
        remove_teacher, remove_student, h]
  · intro h1 h2 h3
    simp [add_accessstudents, h1, h2, h3]
  · intro h1 h2
    simp [remove_accessstudents, h1, h2]
  · intro h1 h2 h3
    simp [access_grades, h1, h2, h3]
  · intro t r hcl hne
    have hcond : ¬ (t = caller ∧ a ∈ r) := fun hc => hne hc.1.symm
    simp [add_score, hcl, hcond]
  · intro hcl
    simp [add_score, hcl]

/-- C1 witness: account 5 is no admin of the fresh contract, and its
`add_teacher` call is rejected without touching the state. -/
theorem c1_capability_amended_witness :
    add_teacher (Transcipt.new 0) 5 1 =
      some (Except.error Error.AccessNotAllowed, Transcipt.new 0) :=
  ((c1_capability_amended (Transcipt.new 0) 5 1 1 "X" 0 []).1 (by decide)).1


/-! Reachability machinery: fields untouched by the remove-student cascade. -/

/-- Unenrolling never changes the role sets, the access directory or the
class list. -/
theorem unenroll_fixed (st : Transcipt) (caller : AccountId) (c : ClassName)
    (s : AccountId) (res : Except Error Unit) (st2 : Transcipt)
    (h : unenroll_student st caller c s = some (res, st2)) :
    st2.students = st.students ∧ st2.teachers = st.teachers ∧
    st2.admins = st.admins ∧ st2.class_list = st.class_list ∧
    st2.accessstudents = st.accessstudents := by
  rcases unenroll_student_spec st caller c s res st2 h with
    ⟨-, h1⟩ | ⟨t, r, _, _, _, _, h1⟩ <;>
      subst h1 <;> exact ⟨rfl, rfl, rfl, rfl, rfl⟩

/-- The cascade loop of `remove_student` never changes the role sets, the
access directory or the class list. -/
theorem cascade_fixed (caller sid : AccountId) (L : List ClassName)
    (st : Transcipt) (res : Except Error Unit) (st2 : Transcipt)
    (h : cascade caller sid L st = some (res, st2)) :
    st2.students = st.students ∧ st2.teachers = st.teachers ∧
    st2.admins = st.admins ∧ st2.class_list = st.class_list ∧
    st2.accessstudents = st.accessstudents := by
  induction L generalizing st res st2 with
  | nil =>
    simp only [cascade, Option.some.injEq, Prod.mk.injEq] at h
    rw [← h.2]
    exact ⟨rfl, rfl, rfl, rfl, rfl⟩
  | cons c rest ih =>
    unfold cascade at h
    split at h
    · exact Option.noConfusion h
    · rename_i e stE heq
      simp only [Option.some.injEq, Prod.mk.injEq] at h
      rw [← h.2]
      exact unenroll_fixed
        { st with grades := mapTake st.grades (sid, c) } caller c sid _ stE heq
    · rename_i u stO heq
      have h1 := unenroll_fixed
        { st with grades := mapTake st.grades (sid, c) } caller c sid _ stO heq
      have h2 := ih stO res st2 h
      exact ⟨h2.1.trans h1.1, h2.2.1.trans h1.2.1, h2.2.2.1.trans h1.2.2.1,
        h2.2.2.2.1.trans h1.2.2.2.1, h2.2.2.2.2.trans h1.2.2.2.2⟩

/-- The admin set after `remove_student` is the admin set before. -/
theorem remove_student_admins (st : Transcipt) (caller sid : AccountId)
    (res : Except Error Unit) (st2 : Transcipt)
    (h : remove_student st caller sid = some (res, st2)) :
    st2.admins = st.admins := by
  unfold remove_student at h
  split_ifs at h with h1 h2
  · split at h
    · exact Option.noConfusion h
    · rename_i L hL
      split at h
      · exact Option.noConfusion h
      · rename_i e stE heq
        simp only [Option.some.injEq, Prod.mk.injEq] at h
        rw [← h.2]
        exact (cascade_fixed caller sid L st _ stE heq).2.2.1
      · rename_i u stO heq
        simp only [Option.some.injEq, Prod.mk.injEq] at h
        rw [← h.2]
        exact (cascade_fixed caller sid L st _ stO heq).2.2.1
  · simp only [Option.some.injEq, Prod.mk.injEq] at h
    rw [← h.2]
  · simp only [Option.some.injEq, Prod.mk.injEq] at h
    rw [← h.2]

/-- Erasing one element from a list of length at least two leaves it
non-empty. -/
theorem erase_ne_nil_of_two_le (l : List AccountId) (a : AccountId)
    (h2 : 2 ≤ l.length) : l.erase a ≠ [] := by
  have : 1 ≤ (l.erase a).length := by
    by_cases hm : a ∈ l
    · rw [List.length_erase_of_mem hm]
      omega
    · rw [List.erase_of_not_mem hm]
      omega
  intro hnil
  rw [hnil] at this
  simp at this

/-- Every single call keeps the admin set non-empty. -/
theorem stepCmd_admins (st : Transcipt) (cm : Cmd) (h : st.admins ≠ []) :
    (stepCmd st cm).admins ≠ [] := by
  cases cm with
  | addTeacher caller id =>
    cases hx : add_teacher st caller id with
    | none => simpa [stepCmd, outState, hx] using h
    | some p =>
      obtain ⟨r, s2⟩ := p
      simp only [stepCmd, outState, hx]
      rcases add_teacher_spec st caller id r s2 hx with hs | hs <;> rw [hs] <;>
        exact h
  | addStudent caller id =>
    cases hx : add_student st caller id with
    | none => simpa [stepCmd, outState, hx] using h
    | some p =>
      obtain ⟨r, s2⟩ := p
      simp only [stepCmd, outState, hx]
      rcases add_student_spec st caller id r s2 hx with hs | hs <;> rw [hs] <;>
        exact h
  | addAdmins caller id =>
    cases hx : add_admins st caller id with
    | none => simpa [stepCmd, outState, hx] using h
    | some p =>
      obtain ⟨r, s2⟩ := p
      simp only [stepCmd, outState, hx]
      rcases add_admins_spec st caller id r s2 hx with hs | hs <;> rw [hs]
      · exact h
      · simp
  | addClasses caller name t ss =>
    cases hx : add_classes st caller name t ss with
    | none => simpa [stepCmd, outState, hx] using h
    | some p =>
      obtain ⟨r, s2⟩ := p
      simp only [stepCmd, outState, hx]
      rcases add_classes_spec st caller name t ss r s2 hx with hs | ⟨-, -, -, hs⟩ <;>
        rw [hs] <;> exact h
  | addScore caller name sid g =>
    cases hx : add_score st caller name sid g with
    | none => simpa [stepCmd, outState, hx] using h
    | some p =>
      obtain ⟨r, s2⟩ := p
      simp only [stepCmd, outState, hx]
      rcases add_score_spec st caller name sid g r s2 hx with
        hs | ⟨t, rr, -, -, -, -, hs⟩ <;> rw [hs] <;> exact h
  | addAccess caller sid g =>
    cases hx : add_accessstudents st caller sid g with
    | none => simpa [stepCmd, outState, hx] using h
    | some p =>
      obtain ⟨r, s2⟩ := p
      simp only [stepCmd, outState, hx]
      rcases add_accessstudents_spec st caller sid g r s2 hx with
        hs | ⟨cur, -, -, hs⟩ <;> rw [hs] <;> exact h
  | removeAccess caller sid g =>
    cases hx : remove_accessstudents st caller sid g with
    | none => simpa [stepCmd, outState, hx] using h
    | some p =>
      obtain ⟨r, s2⟩ := p
      simp only [stepCmd, outState, hx]
      rcases remove_accessstudents_spec st caller sid g r s2 hx with hs | hs <;>
        rw [hs] <;> exact h
  | removeAdmins caller id =>
    cases hx : remove_admins st caller id with
    | none => simpa [stepCmd, outState, hx] using h
    | some p =>
      obtain ⟨r, s2⟩ := p
      simp only [stepCmd, outState, hx]
      rcases remove_admins_spec st caller id r s2 hx with hs | ⟨hlen, hs⟩
      · rw [hs]
        exact h
      · rw [hs]
        exact erase_ne_nil_of_two_le st.admins id hlen
  | removeClasses caller name =>
    cases hx : remove_classes st caller name with
    | none => simpa [stepCmd, outState, hx] using h
    | some p =>
      obtain ⟨r, s2⟩ := p
      simp only [stepCmd, outState, hx]
      rcases remove_classes_spec st caller name r s2 hx with
        ⟨-, hs⟩ | ⟨t, rr, -, hs⟩ <;> rw [hs] <;> exact h
  | unenrollStudent caller name sid =>
    cases hx : unenroll_student st caller name sid with
    | none => simpa [stepCmd, outState, hx] using h
    | some p =>
      obtain ⟨r, s2⟩ := p
      simp only [stepCmd, outState, hx]
      rcases unenroll_student_spec st caller name sid r s2 hx with
        ⟨-, hs⟩ | ⟨t, rr, -, -, -, -, hs⟩ <;> rw [hs] <;> exact h
  | enrollStudent caller name sid =>
    cases hx : enroll_student st caller name sid with
    | none => simpa [stepCmd, outState, hx] using h
    | some p =>
      obtain ⟨r, s2⟩ := p
      simp only [stepCmd, outState, hx]
      rcases enroll_student_spec st caller name sid r s2 hx with
        hs | ⟨t, rr, -, -, -, hs⟩ <;> rw [hs] <;> exact h
  | changeTeacher caller name t =>
    cases hx : change_teacher st caller name t with
    | none => simpa [stepCmd, outState, hx] using h
    | some p =>
      obtain ⟨r, s2⟩ := p
      simp only [stepCmd, outState, hx]
      rcases change_teacher_spec st caller name t r s2 hx with
        hs | ⟨t0, rr, -, -, hs⟩ <;> rw [hs] <;> exact h
  | removeTeacher caller id =>
    cases hx : remove_teacher st caller id with
    | none => simpa [stepCmd, outState, hx] using h
    | some p =>
      obtain ⟨r, s2⟩ := p
      simp only [stepCmd, outState, hx]
      rcases remove_teacher_spec st caller id r s2 hx with hs | hs <;>
        rw [hs] <;> exact h
  | removeStudent caller id =>
    cases hx : remove_student st caller id with
    | none => simpa [stepCmd, outState, hx] using h
    | some p =>
      obtain ⟨r, s2⟩ := p
      simp only [stepCmd, outState, hx]
      rw [remove_student_admins st caller id r s2 hx]
      exact h

/-- Running any command sequence keeps the admin set non-empty. -/
theorem runCmds_admins (st : Transcipt) (cmds : List Cmd)
    (h : st.admins ≠ []) : (runCmds st cmds).admins ≠ [] := by
  induction cmds generalizing st with
  | nil => simpa [runCmds] using h
  | cons cm rest ih =>
    simp only [runCmds, List.foldl_cons]
    exact ih (stepCmd st cm) (stepCmd_admins st cm h)

/-- C2: the constructor seeds the admin set with exactly the deployer; every
state reachable from it by any command sequence has a non-empty admin set;
and `remove_admins` returns AccessNotAllowed, state unchanged, unless the
caller is an admin and the admin set has at least two members. -/
theorem c2_admin_set_never_empty :
    (∀ d : AccountId, (Transcipt.new d).admins = [d]) ∧
    (∀ (d : AccountId) (cmds : List Cmd),
      (runCmds (Transcipt.new d) cmds).admins ≠ []) ∧
    (∀ (st : Transcipt) (caller a : AccountId),
      caller ∉ st.admins ∨ st.admins.length < 2 →
      remove_admins st caller a =
        some (Except.error Error.AccessNotAllowed, st)) := by
  refine ⟨fun d => rfl, ?_, ?_⟩
  · intro d cmds
    exact runCmds_admins _ _ (by simp [Transcipt.new])
  · intro st caller a hor
    unfold remove_admins
    rw [if_neg]
    intro hc
    rcases hor with h1 | h2
    · exact h1 hc.1
    · omega

/-- C2 witness: with a single admin, the deployer cannot remove itself. -/
theorem c2_admin_set_never_empty_witness :
    remove_admins (Transcipt.new 0) 0 0 =
      some (Except.error Error.AccessNotAllowed, Transcipt.new 0) :=
  c2_admin_set_never_empty.2.2 (Transcipt.new 0) 0 0 (Or.inr (by decide))


/-! Class and grade coherence invariant used for the cascade claims. -/

/-- Coherence of the class stores and the grade ledger: the active class
list has no duplicates and matches the domain of the classes mapping, and
every stored grade entry belongs to a student on the roster of an existing
class. -/
def InvC (st : Transcipt) : Prop :=
  st.class_list.Nodup ∧
  (∀ c, (st.classes c).isSome → c ∈ st.class_list) ∧
  (∀ c ∈ st.class_list, (st.classes c).isSome) ∧
  (∀ s c g, st.grades (s, c) = some g → ∃ t r, st.classes c = some (t, r) ∧ s ∈ r)

/-- The fresh contract satisfies the coherence invariant. -/
theorem invC_new (d : AccountId) : InvC (Transcipt.new d) := by
  refine ⟨List.nodup_nil, ?_, ?_, ?_⟩
  · intro c hc
    simp [Transcipt.new] at hc
  · intro c hc
    simp [Transcipt.new] at hc
  · intro s c g hg
    simp [Transcipt.new] at hg

/-- Coherence only constrains the class list, classes and grades fields. -/
theorem invC_congr (st st2 : Transcipt) (h1 : st2.class_list = st.class_list)
    (h2 : st2.classes = st.classes) (h3 : st2.grades = st.grades)
    (h : InvC st) : InvC st2 := by
  unfold InvC
  rw [h1, h2, h3]
  exact h

/-- Deleting a grade entry preserves coherence. -/
theorem invC_take_grade (st : Transcipt) (k : AccountId × ClassName)
    (hI : InvC st) : InvC ({ st with grades := (mapTake st.grades k) }) := by
  obtain ⟨h1, h2, h3, h4⟩ := hI
  refine ⟨h1, h2, h3, ?_⟩
  intro s c g hg
  have hg2 : mapTake st.grades k (s, c) = some g := hg
  by_cases hx : ((s, c) : AccountId × ClassName) = k
  · rw [hx, mapTake_self] at hg2
    exact Option.noConfusion hg2
  · rw [mapTake_of_ne _ _ _ hx] at hg2
    exact h4 s c g hg2

theorem invC_add_teacher (st : Transcipt) (caller a : AccountId)
    (res : Except Error Unit) (st2 : Transcipt)
    (h : add_teacher st caller a = some (res, st2)) (hI : InvC st) :
    InvC st2 := by
  rcases add_teacher_spec st caller a res st2 h with hs | hs <;> subst hs <;>
    exact invC_congr _ _ rfl rfl rfl hI

theorem invC_add_student (st : Transcipt) (caller a : AccountId)
    (res : Except Error Unit) (st2 : Transcipt)
    (h : add_student st caller a = some (res, st2)) (hI : InvC st) :
    InvC st2 := by
  rcases add_student_spec st caller a res st2 h with hs | hs <;> subst hs <;>
    exact invC_congr _ _ rfl rfl rfl hI

theorem invC_add_admins (st : Transcipt) (caller a : AccountId)
    (res : Except Error Unit) (st2 : Transcipt)
    (h : add_admins st caller a = some (res, st2)) (hI : InvC st) :
    InvC st2 := by
  rcases add_admins_spec st caller a res st2 h with hs | hs <;> subst hs <;>
    exact invC_congr _ _ rfl rfl rfl hI

theorem invC_add_accessstudents (st : Transcipt) (caller a b : AccountId)
    (res : Except Error Unit) (st2 : Transcipt)
    (h : add_accessstudents st caller a b = some (res, st2)) (hI : InvC st) :
    InvC st2 := by
  rcases add_accessstudents_spec st caller a b res st2 h with
    hs | ⟨cur, -, -, hs⟩ <;> subst hs <;>
    exact invC_congr _ _ rfl rfl rfl hI

theorem invC_remove_accessstudents (st : Transcipt) (caller a b : AccountId)
    (res : Except Error Unit) (st2 : Transcipt)
    (h : remove_accessstudents st caller a b = some (res, st2)) (hI : InvC st) :
    InvC st2 := by
  rcases remove_accessstudents_spec st caller a b res st2 h with hs | hs <;>
    subst hs <;> exact invC_congr _ _ rfl rfl rfl hI

theorem invC_remove_admins (st : Transcipt) (caller a : AccountId)
    (res : Except Error Unit) (st2 : Transcipt)
    (h : remove_admins st caller a = some (res, st2)) (hI : InvC st) :
    InvC st2 := by
  rcases remove_admins_spec st caller a res st2 h with hs | ⟨-, hs⟩ <;>
    subst hs <;> exact invC_congr _ _ rfl rfl rfl hI

theorem invC_remove_teacher (st : Transcipt) (caller a : AccountId)
    (res : Except Error Unit) (st2 : Transcipt)
    (h : remove_teacher st caller a = some (res, st2)) (hI : InvC st) :
    InvC st2 := by
  rcases remove_teacher_spec st caller a res st2 h with hs | hs <;> subst hs <;>
    exact invC_congr _ _ rfl rfl rfl hI

theorem invC_add_classes (st : Transcipt) (caller : AccountId) (c : ClassName)
    (a : AccountId) (ss : List AccountId) (res : Except Error Unit)
    (st2 : Transcipt) (h : add_classes st caller c a ss = some (res, st2))
    (hI : InvC st) : InvC st2 := by
  rcases add_classes_spec st caller c a ss res st2 h with
    hs | ⟨-, -, hnot, hs⟩
  · subst hs
    exact invC_congr _ _ rfl rfl rfl hI
  · subst hs
    obtain ⟨hnd, hcm, hmc, hgr⟩ := hI
    refine ⟨?_, ?_, ?_, ?_⟩
    · simp only [List.nodup_append, List.nodup_cons, List.nodup_nil]
      refine ⟨hnd, ⟨by simp, trivial⟩, ?_⟩
      intro x hx hxc
      exact hnot ((List.mem_singleton.mp hxc) ▸ hx)
    · intro c2 hc2
      by_cases hx : c2 = c
      · subst hx
        simp
      · have hc3 : (mapInsert st.classes c (a, ss) c2).isSome := hc2
        rw [mapInsert_of_ne _ _ _ _ hx] at hc3
        exact List.mem_append_left _ (hcm c2 hc3)
    · intro c2 hc2
      rcases List.mem_append.mp hc2 with hmem | hmem
      · by_cases hx : c2 = c
        · subst hx
          simp [mapInsert_self]
        · show (mapInsert st.classes c (a, ss) c2).isSome
          rw [mapInsert_of_ne _ _ _ _ hx]
          exact hmc c2 hmem
      · have hx : c2 = c := by simpa using hmem
        subst hx
        simp [mapInsert_self]
    · intro s c2 g hg
      obtain ⟨t, r, hcl, hmem⟩ := hgr s c2 g hg
      by_cases hx : c2 = c
      · subst hx
        exact absurd (hcm c2 (by rw [hcl]; rfl)) hnot
      · exact ⟨t, r, by
          show mapInsert st.classes c (a, ss) c2 = some (t, r)
          rw [mapInsert_of_ne _ _ _ _ hx]
          exact hcl, hmem⟩

theorem invC_add_score (st : Transcipt) (caller : AccountId) (c : ClassName)
    (s : AccountId) (g : Nat) (res : Except Error Unit) (st2 : Transcipt)
    (h : add_score st caller c s g = some (res, st2)) (hI : InvC st) :
    InvC st2 := by
  rcases add_score_spec st caller c s g res st2 h with
    hs | ⟨t, r, hcl, -, hmem, -, hs⟩
  · subst hs
    exact invC_congr _ _ rfl rfl rfl hI
  · subst hs
    obtain ⟨hnd, hcm, hmc, hgr⟩ := hI
    refine ⟨hnd, hcm, hmc, ?_⟩
    intro s2 c2 g2 hg
    by_cases hx : ((s2, c2) : AccountId × ClassName) = (s, c)
    · have hx1 : s2 = s := congrArg Prod.fst hx
      have hx2 : c2 = c := congrArg Prod.snd hx
      rw [hx1, hx2]
      exact ⟨t, r, hcl, hmem⟩
    · have hg2 : mapInsert st.grades (s, c)
          (((st.grades (s, c)).getD []) ++ [g]) (s2, c2) = some g2 := hg
      rw [mapInsert_of_ne _ _ _ _ hx] at hg2
      exact hgr s2 c2 g2 hg2

theorem invC_remove_classes (st : Transcipt) (caller : AccountId)
    (c : ClassName) (res : Except Error Unit) (st2 : Transcipt)
    (h : remove_classes st caller c = some (res, st2)) (hI : InvC st) :
    InvC st2 := by
  rcases remove_classes_spec st caller c res st2 h with ⟨-, hs⟩ | ⟨t, r, hcl, hs⟩
  · subst hs
    exact invC_congr _ _ rfl rfl rfl hI
  · subst hs
    obtain ⟨hnd, hcm, hmc, hgr⟩ := hI
    refine ⟨hnd.erase c, ?_, ?_, ?_⟩
    · intro c2 hc2
      by_cases hx : c2 = c
      · subst hx
        have hc3 : (mapTake st.classes c2 c2).isSome := hc2
        rw [mapTake_self] at hc3
        exact absurd hc3 (by simp)
      · have hc3 : (mapTake st.classes c c2).isSome := hc2
        rw [mapTake_of_ne _ _ _ hx] at hc3
        exact (List.mem_erase_of_ne hx).mpr (hcm c2 hc3)
    · intro c2 hc2
      obtain ⟨hx, hmem⟩ := (hnd.mem_erase_iff).mp hc2
      show (mapTake st.classes c c2).isSome
      rw [mapTake_of_ne _ _ _ hx]
      exact hmc c2 hmem
    · intro s2 c2 g2 hg
      have hg2 : (r.foldl (fun g student => mapTake g (student, c)) st.grades)
          (s2, c2) = some g2 := hg
      rw [foldTake_apply] at hg2
      by_cases hcc : s2 ∈ r ∧ c2 = c
      · rw [if_pos hcc] at hg2
        exact Option.noConfusion hg2
      · rw [if_neg hcc] at hg2
        obtain ⟨t2, r2, hcl2, hm2⟩ := hgr s2 c2 g2 hg2
        by_cases hx : c2 = c
        · rw [hx, hcl] at hcl2
          have he2 : r = r2 := congrArg Prod.snd (Option.some.inj hcl2)
          rw [← he2] at hm2
          exact absurd ⟨hm2, hx⟩ hcc
        · refine ⟨t2, r2, ?_, hm2⟩
          show mapTake st.classes c c2 = some (t2, r2)
          rw [mapTake_of_ne _ _ _ hx]
          exact hcl2

theorem invC_unenroll_student (st : Transcipt) (caller : AccountId)
    (c : ClassName) (s : AccountId) (res : Except Error Unit) (st2 : Transcipt)
    (h : unenroll_student st caller c s = some (res, st2)) (hI : InvC st) :
    InvC st2 := by
  rcases unenroll_student_spec st caller c s res st2 h with
    ⟨-, hs⟩ | ⟨t, r, hcl, -, -, -, hs⟩
  · subst hs
    exact invC_congr _ _ rfl rfl rfl hI
  · subst hs
    obtain ⟨hnd, hcm, hmc, hgr⟩ := hI
    refine ⟨hnd, ?_, ?_, ?_⟩
    · intro c2 hc2
      by_cases hx : c2 = c
      · subst hx
        exact hcm c2 (by rw [hcl]; rfl)
      · have hc3 : (mapInsert st.classes c (t, r.erase s) c2).isSome := hc2
        rw [mapInsert_of_ne _ _ _ _ hx] at hc3
        exact hcm c2 hc3
    · intro c2 hc2
      by_cases hx : c2 = c
      · subst hx
        simp [mapInsert_self]
      · show (mapInsert st.classes c (t, r.erase s) c2).isSome
        rw [mapInsert_of_ne _ _ _ _ hx]
        exact hmc c2 hc2
    · intro s2 c2 g2 hg
      have hg2 : mapTake st.grades (s, c) (s2, c2) = some g2 := hg
      by_cases hk : ((s2, c2) : AccountId × ClassName) = (s, c)
      · rw [hk, mapTake_self] at hg2
        exact Option.noConfusion hg2
      · rw [mapTake_of_ne _ _ _ hk] at hg2
        obtain ⟨t2, r2, hcl2, hm2⟩ := hgr s2 c2 g2 hg2
        by_cases hx : c2 = c
        · rw [hx, hcl] at hcl2
          have he1 : t = t2 := congrArg Prod.fst (Option.some.inj hcl2)
          have he2 : r = r2 := congrArg Prod.snd (Option.some.inj hcl2)
          rw [← he2] at hm2
          have hs2 : s2 ≠ s := fun hcontra => hk (by rw [hcontra, hx])
          refine ⟨t, r.erase s, ?_, (List.mem_erase_of_ne hs2).mpr hm2⟩
          rw [hx]
          show mapInsert st.classes c (t, r.erase s) c = some (t, r.erase s)
          rw [mapInsert_self]
        · refine ⟨t2, r2, ?_, hm2⟩
          show mapInsert st.classes c (t, r.erase s) c2 = some (t2, r2)
          rw [mapInsert_of_ne _ _ _ _ hx]
          exact hcl2

theorem invC_enroll_student (st : Transcipt) (caller : AccountId)
    (c : ClassName) (s : AccountId) (res : Except Error Unit) (st2 : Transcipt)
    (h : enroll_student st caller c s = some (res, st2)) (hI : InvC st) :
    InvC st2 := by
  rcases enroll_student_spec st caller c s res st2 h with
    hs | ⟨t, r, hcl, -, -, hs⟩
  · subst hs
    exact invC_congr _ _ rfl rfl rfl hI
  · subst hs
    obtain ⟨hnd, hcm, hmc, hgr⟩ := hI
    refine ⟨hnd, ?_, ?_, ?_⟩
    · intro c2 hc2
      by_cases hx : c2 = c
      · subst hx
        exact hcm c2 (by rw [hcl]; rfl)
      · have hc3 : (mapInsert st.classes c (t, r ++ [s]) c2).isSome := hc2
        rw [mapInsert_of_ne _ _ _ _ hx] at hc3
        exact hcm c2 hc3
    · intro c2 hc2
      by_cases hx : c2 = c
      · subst hx
        simp [mapInsert_self]
      · show (mapInsert st.classes c (t, r ++ [s]) c2).isSome
        rw [mapInsert_of_ne _ _ _ _ hx]
        exact hmc c2 hc2
    · intro s2 c2 g2 hg
      have hg2 : mapInsert st.grades (s, c) [] (s2, c2) = some g2 := hg
      by_cases hk : ((s2, c2) : AccountId × ClassName) = (s, c)
      · have hk1 : s2 = s := congrArg Prod.fst hk
        have hk2 : c2 = c := congrArg Prod.snd hk
        rw [hk1, hk2]
        refine ⟨t, r ++ [s], ?_, by simp⟩
        show mapInsert st.classes c (t, r ++ [s]) c = some (t, r ++ [s])
        rw [mapInsert_self]
      · rw [mapInsert_of_ne _ _ _ _ hk] at hg2
        obtain ⟨t2, r2, hcl2, hm2⟩ := hgr s2 c2 g2 hg2
        by_cases hx : c2 = c
        · rw [hx, hcl] at hcl2
          have he2 : r = r2 := congrArg Prod.snd (Option.some.inj hcl2)
          rw [← he2] at hm2
          rw [hx]
          refine ⟨t, r ++ [s], ?_, List.mem_append_left _ hm2⟩
          show mapInsert st.classes c (t, r ++ [s]) c = some (t, r ++ [s])
          rw [mapInsert_self]
        · refine ⟨t2, r2, ?_, hm2⟩
          show mapInsert st.classes c (t, r ++ [s]) c2 = some (t2, r2)
          rw [mapInsert_of_ne _ _ _ _ hx]
          exact hcl2

theorem invC_change_teacher (st : Transcipt) (caller : AccountId)
    (c : ClassName) (t : AccountId) (res : Except Error Unit) (st2 : Transcipt)
    (h : change_teacher st caller c t = some (res, st2)) (hI : InvC st) :
    InvC st2 := by
  rcases change_teacher_spec st caller c t res st2 h with
    hs | ⟨t0, r, hcl, -, hs⟩
  · subst hs
    exact invC_congr _ _ rfl rfl rfl hI
  · subst hs
    obtain ⟨hnd, hcm, hmc, hgr⟩ := hI
    refine ⟨hnd, ?_, ?_, ?_⟩
    · intro c2 hc2
      by_cases hx : c2 = c
      · subst hx
        exact hcm c2 (by rw [hcl]; rfl)
      · have hc3 : (mapInsert st.classes c (t, r) c2).isSome := hc2
        rw [mapInsert_of_ne _ _ _ _ hx] at hc3
        exact hcm c2 hc3
    · intro c2 hc2
      by_cases hx : c2 = c
      · subst hx
        simp [mapInsert_self]
      · show (mapInsert st.classes c (t, r) c2).isSome
        rw [mapInsert_of_ne _ _ _ _ hx]
        exact hmc c2 hc2
    · intro s2 c2 g2 hg
      obtain ⟨t2, r2, hcl2, hm2⟩ := hgr s2 c2 g2 hg
      by_cases hx : c2 = c
      · rw [hx, hcl] at hcl2
        have he2 : r = r2 := congrArg Prod.snd (Option.some.inj hcl2)
        rw [← he2] at hm2
        rw [hx]
        refine ⟨t, r, ?_, hm2⟩
        show mapInsert st.classes c (t, r) c = some (t, r)
        rw [mapInsert_self]
      · refine ⟨t2, r2, ?_, hm2⟩
        show mapInsert st.classes c (t, r) c2 = some (t2, r2)
        rw [mapInsert_of_ne _ _ _ _ hx]
        exact hcl2

/-- Coherence is preserved along the cascade loop. -/
theorem invC_cascade (caller sid : AccountId) (L : List ClassName)
    (st : Transcipt) (res : Except Error Unit) (st2 : Transcipt)
    (h : cascade caller sid L st = some (res, st2)) (hI : InvC st) :
    InvC st2 := by
  induction L generalizing st res st2 with
  | nil =>
    simp only [cascade, Option.some.injEq, Prod.mk.injEq] at h
    rw [← h.2]
    exact hI
  | cons c rest ih =>
    unfold cascade at h
    split at h
    · exact Option.noConfusion h
    · rename_i e stE heq
      simp only [Option.some.injEq, Prod.mk.injEq] at h
      rw [← h.2]
      exact invC_unenroll_student _ caller c sid _ stE heq
        (invC_take_grade st (sid, c) hI)
    · rename_i u stO heq
      exact ih stO res st2 h (invC_unenroll_student _ caller c sid _ stO heq
        (invC_take_grade st (sid, c) hI))

/-- Coherence is preserved by `remove_student`. -/
theorem invC_remove_student (st : Transcipt) (caller sid : AccountId)
    (res : Except Error Unit) (st2 : Transcipt)
    (h : remove_student st caller sid = some (res, st2)) (hI : InvC st) :
    InvC st2 := by
  unfold remove_student at h
  split_ifs at h with h1 h2
  · split at h
    · exact Option.noConfusion h
    · rename_i L hL
      split at h
      · exact Option.noConfusion h
      · rename_i e stE heq
        simp only [Option.some.injEq, Prod.mk.injEq] at h
        rw [← h.2]
        exact invC_cascade caller sid L st _ stE heq hI
      · rename_i u stO heq
        simp only [Option.some.injEq, Prod.mk.injEq] at h
        rw [← h.2]
        exact invC_congr _ _ rfl rfl rfl
          (invC_cascade caller sid L st _ stO heq hI)
  · simp only [Option.some.injEq, Prod.mk.injEq] at h
    rw [← h.2]
    exact hI
  · simp only [Option.some.injEq, Prod.mk.injEq] at h
    rw [← h.2]
    exact hI

/-- Coherence is preserved by every single call. -/
theorem stepCmd_invC (st : Transcipt) (cm : Cmd) (hI : InvC st) :
    InvC (stepCmd st cm) := by
  cases cm with
  | addTeacher caller id =>
    cases hx : add_teacher st caller id with
    | none => simpa [stepCmd, outState, hx] using hI
    | some p =>
      obtain ⟨r, s2⟩ := p
      simp only [stepCmd, outState, hx]
      exact invC_add_teacher st caller id r s2 hx hI
  | addStudent caller id =>
    cases hx : add_student st caller id with
    | none => simpa [stepCmd, outState, hx] using hI
    | some p =>
      obtain ⟨r, s2⟩ := p
      simp only [stepCmd, outState, hx]
      exact invC_add_student st caller id r s2 hx hI
  | addAdmins caller id =>
    cases hx : add_admins st caller id with
    | none => simpa [stepCmd, outState, hx] using hI
    | some p =>
      obtain ⟨r, s2⟩ := p
      simp only [stepCmd, outState, hx]
      exact invC_add_admins st caller id r s2 hx hI
  | addClasses caller name t ss =>
    cases hx : add_classes st caller name t ss with
    | none => simpa [stepCmd, outState, hx] using hI
    | some p =>
      obtain ⟨r, s2⟩ := p
      simp only [stepCmd, outState, hx]
      exact invC_add_classes st caller name t ss r s2 hx hI
  | addScore caller name sid g =>
    cases hx : add_score st caller name sid g with
    | none => simpa [stepCmd, outState, hx] using hI
    | some p =>
      obtain ⟨r, s2⟩ := p
      simp only [stepCmd, outState, hx]
      exact invC_add_score st caller name sid g r s2 hx hI
  | addAccess caller sid g =>
    cases hx : add_accessstudents st caller sid g with
    | none => simpa [stepCmd, outState, hx] using hI
    | some p =>
      obtain ⟨r, s2⟩ := p
      simp only [stepCmd, outState, hx]
      exact invC_add_accessstudents st caller sid g r s2 hx hI
  | removeAccess caller sid g =>
    cases hx : remove_accessstudents st caller sid g with
    | none => simpa [stepCmd, outState, hx] using hI
    | some p =>
      obtain ⟨r, s2⟩ := p
      simp only [stepCmd, outState, hx]
      exact invC_remove_accessstudents st caller sid g r s2 hx hI
  | removeAdmins caller id =>
    cases hx : remove_admins st caller id with
    | none => simpa [stepCmd, outState, hx] using hI
    | some p =>
      obtain ⟨r, s2⟩ := p
      simp only [stepCmd, outState, hx]
      exact invC_remove_admins st caller id r s2 hx hI
  | removeClasses caller name =>
    cases hx : remove_classes st caller name with
    | none => simpa [stepCmd, outState, hx] using hI
    | some p =>
      obtain ⟨r, s2⟩ := p
      simp only [stepCmd, outState, hx]
      exact invC_remove_classes st caller name r s2 hx hI
  | unenrollStudent caller name sid =>
    cases hx : unenroll_student st caller name sid with
    | none => simpa [stepCmd, outState, hx] using hI
    | some p =>
      obtain ⟨r, s2⟩ := p
      simp only [stepCmd, outState, hx]
      exact invC_unenroll_student st caller name sid r s2 hx hI
  | enrollStudent caller name sid =>
    cases hx : enroll_student st caller name sid with
    | none => simpa [stepCmd, outState, hx] using hI
    | some p =>
      obtain ⟨r, s2⟩ := p
      simp only [stepCmd, outState, hx]
      exact invC_enroll_student st caller name sid r s2 hx hI
  | changeTeacher caller name t =>
    cases hx : change_teacher st caller name t with
    | none => simpa [stepCmd, outState, hx] using hI
    | some p =>
      obtain ⟨r, s2⟩ := p
      simp only [stepCmd, outState, hx]
      exact invC_change_teacher st caller name t r s2 hx hI
  | removeTeacher caller id =>
    cases hx : remove_teacher st caller id with
    | none => simpa [stepCmd, outState, hx] using hI
    | some p =>
      obtain ⟨r, s2⟩ := p
      simp only [stepCmd, outState, hx]
      exact invC_remove_teacher st caller id r s2 hx hI
  | removeStudent caller id =>
    cases hx : remove_student st caller id with
    | none => simpa [stepCmd, outState, hx] using hI
    | some p =>
      obtain ⟨r, s2⟩ := p
      simp only [stepCmd, outState, hx]
      exact invC_remove_student st caller id r s2 hx hI

/-- Coherence holds in every reachable state. -/
theorem runCmds_invC (st : Transcipt) (cmds : List Cmd) (hI : InvC st) :
    InvC (runCmds st cmds) := by
  induction cmds generalizing st with
  | nil => simpa [runCmds] using hI
  | cons cm rest ih =>
    simp only [runCmds, List.foldl_cons]
    exact ih (stepCmd st cm) (stepCmd_invC st cm hI)


/-- C3 state: the sample state after `remove_classes("C")` by admin 0. -/
def c3state : Transcipt :=
  outState sampleClassState (remove_classes sampleClassState 0 "C")

/-- C3: in any state reachable from the constructor, when `remove_classes(c)`
returns Ok no grade entry remains for any (student, c) pair, c is gone from
the active class list, and c has no entry in the classes mapping. -/
theorem c3_remove_classes_cascade (d : AccountId) (cmds : List Cmd)
    (caller : AccountId) (c : ClassName) (st2 : Transcipt)
    (h : remove_classes (runCmds (Transcipt.new d) cmds) caller c =
      some (Except.ok (), st2)) :
    (∀ s, st2.grades (s, c) = none) ∧ c ∉ st2.class_list ∧
    st2.classes c = none := by
  have hC : InvC (runCmds (Transcipt.new d) cmds) :=
    runCmds_invC _ cmds (invC_new d)
  obtain ⟨hnd, hcm, hmc, hgr⟩ := hC
  rcases remove_classes_spec _ caller c _ st2 h with ⟨hres, -⟩ | ⟨t, r, hcl, hs⟩
  · exact absurd hres (by simp)
  · subst hs
    refine ⟨?_, ?_, ?_⟩
    · intro s
      show (r.foldl (fun g student => mapTake g (student, c))
        (runCmds (Transcipt.new d) cmds).grades) (s, c) = none
      rw [foldTake_apply]
      by_cases hmem : s ∈ r
      · rw [if_pos ⟨hmem, rfl⟩]
      · rw [if_neg (fun hc2 => hmem hc2.1)]
        cases hg : (runCmds (Transcipt.new d) cmds).grades (s, c) with
        | none => rfl
        | some g =>
          obtain ⟨t2, r2, hcl2, hm2⟩ := hgr s c g hg
          rw [hcl] at hcl2
          have he2 : r = r2 := congrArg Prod.snd (Option.some.inj hcl2)
          rw [← he2] at hm2
          exact absurd hm2 hmem
    · intro hmem
      have hmem2 : c ∈ (runCmds (Transcipt.new d) cmds).class_list.erase c :=
        hmem
      exact absurd rfl ((hnd.mem_erase_iff).mp hmem2).1
    · show mapTake (runCmds (Transcipt.new d) cmds).classes c c = none
      rw [mapTake_self]

/-- C3 witness: removing class "C" from the sample state deletes its class
record. -/
theorem c3_remove_classes_cascade_witness : c3state.classes "C" = none :=
  (c3_remove_classes_cascade 0
    [Cmd.addTeacher 0 1, Cmd.addStudent 0 2, Cmd.addClasses 0 "C" 1 [2]]
    0 "C" c3state rfl).2.2


/-! Roster invariant: rosters have no duplicates and list only registered
students.  Duplicate-freedom of rosters only holds when `add_classes` is
called with duplicate-free student lists, which the code does not enforce. -/

/-- Rosters are duplicate-free and contained in the student set. -/
def InvR (st : Transcipt) : Prop :=
  ∀ c t r, st.classes c = some (t, r) → r.Nodup ∧ ∀ s ∈ r, s ∈ st.students

/-- The fresh contract satisfies the roster invariant. -/
theorem invR_new (d : AccountId) : InvR (Transcipt.new d) := by
  intro c t r hcl
  simp [Transcipt.new] at hcl

/-- The roster invariant only constrains the classes and students fields,
and survives any growth of the student set. -/
theorem invR_congr (st st2 : Transcipt) (hc : st2.classes = st.classes)
    (hsub : ∀ x ∈ st.students, x ∈ st2.students) (h : InvR st) : InvR st2 := by
  intro c t r hcl
  rw [hc] at hcl
  obtain ⟨h1, h2⟩ := h c t r hcl
  exact ⟨h1, fun s hs => hsub s (h2 s hs)⟩

/-- A duplicate-free list stays duplicate-free after appending one fresh
element. -/
theorem nodup_append_single (r : List AccountId) (s : AccountId)
    (hnd : r.Nodup) (hns : s ∉ r) : (r ++ [s]).Nodup := by
  simp only [List.nodup_append, List.nodup_cons, List.nodup_nil]
  refine ⟨hnd, ⟨by simp, trivial⟩, ?_⟩
  intro x hx hxs
  exact hns ((List.mem_singleton.mp hxs) ▸ hx)

theorem invR_add_teacher (st : Transcipt) (caller a : AccountId)
    (res : Except Error Unit) (st2 : Transcipt)
    (h : add_teacher st caller a = some (res, st2)) (hR : InvR st) :
    InvR st2 := by
  rcases add_teacher_spec st caller a res st2 h with hs | hs <;> subst hs <;>
    exact invR_congr _ _ rfl (fun x hx => hx) hR

theorem invR_add_student (st : Transcipt) (caller a : AccountId)
    (res : Except Error Unit) (st2 : Transcipt)
    (h : add_student st caller a = some (res, st2)) (hR : InvR st) :
    InvR st2 := by
  rcases add_student_spec st caller a res st2 h with hs | hs <;> subst hs
  · exact invR_congr _ _ rfl (fun x hx => hx) hR
  · intro c t r hcl
    obtain ⟨h1, h2⟩ := hR c t r hcl
    exact ⟨h1, fun x hx => List.mem_append_left _ (h2 x hx)⟩

theorem invR_add_admins (st : Transcipt) (caller a : AccountId)
    (res : Except Error Unit) (st2 : Transcipt)
    (h : add_admins st caller a = some (res, st2)) (hR : InvR st) :
    InvR st2 := by
  rcases add_admins_spec st caller a res st2 h with hs | hs <;> subst hs <;>
    exact invR_congr _ _ rfl (fun x hx => hx) hR

theorem invR_add_accessstudents (st : Transcipt) (caller a b : AccountId)
    (res : Except Error Unit) (st2 : Transcipt)
    (h : add_accessstudents st caller a b = some (res, st2)) (hR : InvR st) :
    InvR st2 := by
  rcases add_accessstudents_spec st caller a b res st2 h with
    hs | ⟨cur, -, -, hs⟩ <;> subst hs <;>
    exact invR_congr _ _ rfl (fun x hx => hx) hR

theorem invR_remove_accessstudents (st : Transcipt) (caller a b : AccountId)
    (res : Except Error Unit) (st2 : Transcipt)
    (h : remove_accessstudents st caller a b = some (res, st2)) (hR : InvR st) :
    InvR st2 := by
  rcases remove_accessstudents_spec st caller a b res st2 h with hs | hs <;>
    subst hs <;> exact invR_congr _ _ rfl (fun x hx => hx) hR

theorem invR_remove_admins (st : Transcipt) (caller a : AccountId)
    (res : Except Error Unit) (st2 : Transcipt)
    (h : remove_admins st caller a = some (res, st2)) (hR : InvR st) :
    InvR st2 := by
  rcases remove_admins_spec st caller a res st2 h with hs | ⟨-, hs⟩ <;>
    subst hs <;> exact invR_congr _ _ rfl (fun x hx => hx) hR

theorem invR_remove_teacher (st : Transcipt) (caller a : AccountId)
    (res : Except Error Unit) (st2 : Transcipt)
    (h : remove_teacher st caller a = some (res, st2)) (hR : InvR st) :
    InvR st2 := by
  rcases remove_teacher_spec st caller a res st2 h with hs | hs <;> subst hs <;>
    exact invR_congr _ _ rfl (fun x hx => hx) hR

theorem invR_add_score (st : Transcipt) (caller : AccountId) (c : ClassName)
    (s : AccountId) (g : Nat) (res : Except Error Unit) (st2 : Transcipt)
    (h : add_score st caller c s g = some (res, st2)) (hR : InvR st) :
    InvR st2 := by
  rcases add_score_spec st caller c s g res st2 h with
    hs | ⟨t, r, -, -, -, -, hs⟩ <;> subst hs <;>
    exact invR_congr _ _ rfl (fun x hx => hx) hR

theorem invR_add_classes (st : Transcipt) (caller : AccountId) (c : ClassName)
    (a : AccountId) (ss : List AccountId) (res : Except Error Unit)
    (st2 : Transcipt) (h : add_classes st caller c a ss = some (res, st2))
    (hnodup : ss.Nodup) (hR : InvR st) : InvR st2 := by
  rcases add_classes_spec st caller c a ss res st2 h with
    hs | ⟨-, hss, -, hs⟩
  · subst hs
    exact invR_congr _ _ rfl (fun x hx => hx) hR
  · subst hs
    intro c2 t2 r2 hcl2
    have hcl3 : mapInsert st.classes c (a, ss) c2 = some (t2, r2) := hcl2
    by_cases hx : c2 = c
    · rw [hx, mapInsert_self] at hcl3
      have her : ss = r2 := congrArg Prod.snd (Option.some.inj hcl3)
      rw [← her]
      exact ⟨hnodup, hss⟩
    · rw [mapInsert_of_ne _ _ _ _ hx] at hcl3
      exact hR c2 t2 r2 hcl3

theorem invR_enroll_student (st : Transcipt) (caller : AccountId)
    (c : ClassName) (s : AccountId) (res : Except Error Unit) (st2 : Transcipt)
    (h : enroll_student st caller c s = some (res, st2)) (hR : InvR st) :
    InvR st2 := by
  rcases enroll_student_spec st caller c s res st2 h with
    hs | ⟨t, r, hcl, hstud, hnot, hs⟩
  · subst hs
    exact invR_congr _ _ rfl (fun x hx => hx) hR
  · subst hs
    intro c2 t2 r2 hcl2
    have hcl3 : mapInsert st.classes c (t, r ++ [s]) c2 = some (t2, r2) := hcl2
    obtain ⟨hnd0, hsub0⟩ := hR c t r hcl
    by_cases hx : c2 = c
    · rw [hx, mapInsert_self] at hcl3
      have her : r ++ [s] = r2 := congrArg Prod.snd (Option.some.inj hcl3)
      rw [← her]
      refine ⟨nodup_append_single r s hnd0 hnot, ?_⟩
      intro x hxm
      rcases List.mem_append.mp hxm with hxr | hxs
      · exact hsub0 x hxr
      · exact (List.mem_singleton.mp hxs) ▸ hstud
    · rw [mapInsert_of_ne _ _ _ _ hx] at hcl3
      exact hR c2 t2 r2 hcl3

theorem invR_unenroll_student (st : Transcipt) (caller : AccountId)
    (c : ClassName) (s : AccountId) (res : Except Error Unit) (st2 : Transcipt)
    (h : unenroll_student st caller c s = some (res, st2)) (hR : InvR st) :
    InvR st2 := by
  rcases unenroll_student_spec st caller c s res st2 h with
    ⟨-, hs⟩ | ⟨t, r, hcl, -, -, -, hs⟩
  · subst hs
    exact invR_congr _ _ rfl (fun x hx => hx) hR
  · subst hs
    intro c2 t2 r2 hcl2
    have hcl3 : mapInsert st.classes c (t, r.erase s) c2 = some (t2, r2) := hcl2
    obtain ⟨hnd0, hsub0⟩ := hR c t r hcl
    by_cases hx : c2 = c
    · rw [hx, mapInsert_self] at hcl3
      have her : r.erase s = r2 := congrArg Prod.snd (Option.some.inj hcl3)
      rw [← her]
      exact ⟨hnd0.erase s, fun x hxm => hsub0 x (List.erase_subset s r hxm)⟩
    · rw [mapInsert_of_ne _ _ _ _ hx] at hcl3
      exact hR c2 t2 r2 hcl3

theorem invR_change_teacher (st : Transcipt) (caller : AccountId)
    (c : ClassName) (t : AccountId) (res : Except Error Unit) (st2 : Transcipt)
    (h : change_teacher st caller c t = some (res, st2)) (hR : InvR st) :
    InvR st2 := by
  rcases change_teacher_spec st caller c t res st2 h with
    hs | ⟨t0, r, hcl, -, hs⟩
  · subst hs
    exact invR_congr _ _ rfl (fun x hx => hx) hR
  · subst hs
    intro c2 t2 r2 hcl2
    have hcl3 : mapInsert st.classes c (t, r) c2 = some (t2, r2) := hcl2
    obtain ⟨hnd0, hsub0⟩ := hR c t0 r hcl
    by_cases hx : c2 = c
    · rw [hx, mapInsert_self] at hcl3
      have her : r = r2 := congrArg Prod.snd (Option.some.inj hcl3)
      rw [← her]
      exact ⟨hnd0, hsub0⟩
    · rw [mapInsert_of_ne _ _ _ _ hx] at hcl3
      exact hR c2 t2 r2 hcl3

theorem invR_remove_classes (st : Transcipt) (caller : AccountId)
    (c : ClassName) (res : Except Error Unit) (st2 : Transcipt)
    (h : remove_classes st caller c = some (res, st2)) (hR : InvR st) :
    InvR st2 := by
  rcases remove_classes_spec st caller c res st2 h with ⟨-, hs⟩ | ⟨t, r, hcl, hs⟩
  · subst hs
    exact invR_congr _ _ rfl (fun x hx => hx) hR
  · subst hs
    intro c2 t2 r2 hcl2
    have hcl3 : mapTake st.classes c c2 = some (t2, r2) := hcl2
    by_cases hx : c2 = c
    · rw [hx, mapTake_self] at hcl3
      exact Option.noConfusion hcl3
    · rw [mapTake_of_ne _ _ _ hx] at hcl3
      exact hR c2 t2 r2 hcl3


/-- The collection loop returns a sublist of the scanned list holding every
scanned class whose roster lists the student. -/
theorem collectClasses_spec
    (m : StoreMap ClassName (AccountId × List AccountId)) (sid : AccountId) :
    ∀ (l L : List ClassName), collectClasses m sid l = some L →
      L.Sublist l ∧ ∀ c ∈ l, ∀ t r, m c = some (t, r) → sid ∈ r → c ∈ L := by
  intro l
  induction l with
  | nil =>
    intro L h
    simp only [collectClasses, Option.some.injEq] at h
    subst h
    exact ⟨List.Sublist.refl _, fun c hc => absurd hc (List.not_mem_nil c)⟩
  | cons cn rest ih =>
    intro L h
    unfold collectClasses at h
    split at h
    · exact Option.noConfusion h
    · rename_i ci hci
      split at h
      · exact Option.noConfusion h
      · rename_i cs hcs
        simp only [Option.some.injEq] at h
        obtain ⟨hsub, hall⟩ := ih cs hcs
        by_cases hmem : sid ∈ ci.2
        · rw [if_pos hmem] at h
          subst h
          constructor
          · exact List.Sublist.cons₂ cn hsub
          · intro c hc t r hm hsid
            rcases List.mem_cons.mp hc with hceq | hcr
            · rw [hceq]
              exact List.mem_cons_self cn cs
            · exact List.mem_cons_of_mem cn (hall c hcr t r hm hsid)
        · rw [if_neg hmem] at h
          subst h
          constructor
          · exact List.Sublist.cons cn hsub
          · intro c hc t r hm hsid
            rcases List.mem_cons.mp hc with hceq | hcr
            · exfalso
              rw [hceq, hci] at hm
              have he2 : ci.2 = r := congrArg Prod.snd (Option.some.inj hm)
              rw [he2] at hmem
              exact hmem hsid
            · exact hall c hcr t r hm hsid

/-- Along any prefix of the cascade, every class record either keeps its
roster or has the student's first occurrence erased: the teacher is
unchanged, the roster shrinks, and duplicate-freedom is preserved. -/
theorem cascade_classes_sub (caller sid : AccountId) :
    ∀ (L : List ClassName) (st : Transcipt) (res : Except Error Unit)
      (st2 : Transcipt), cascade caller sid L st = some (res, st2) →
      ∀ c t r, st2.classes c = some (t, r) →
        ∃ r0, st.classes c = some (t, r0) ∧ r ⊆ r0 ∧ (r0.Nodup → r.Nodup) := by
  intro L
  induction L with
  | nil =>
    intro st res st2 h
    simp only [cascade, Option.some.injEq, Prod.mk.injEq] at h
    rw [← h.2]
    intro c t r hcl
    exact ⟨r, hcl, List.Subset.refl r, fun hn => hn⟩
  | cons cn rest ih =>
    intro st res st2 h
    unfold cascade at h
    split at h
    · exact Option.noConfusion h
    · rename_i e stE heq
      simp only [Option.some.injEq, Prod.mk.injEq] at h
      rw [← h.2]
      intro c t r hcl
      rcases unenroll_student_spec _ caller cn sid _ stE heq with
        ⟨-, hs⟩ | ⟨t1, r1, hcl1, -, -, -, hs⟩
      · subst hs
        exact ⟨r, hcl, List.Subset.refl r, fun hn => hn⟩
      · subst hs
        have hcl3 : mapInsert st.classes cn (t1, r1.erase sid) c =
          some (t, r) := hcl
        by_cases hx : c = cn
        · rw [hx, mapInsert_self] at hcl3
          have h1 : t1 = t := congrArg Prod.fst (Option.some.inj hcl3)
          have h2 : r1.erase sid = r := congrArg Prod.snd (Option.some.inj hcl3)
          refine ⟨r1, ?_, ?_, ?_⟩
          · rw [hx, ← h1]
            exact hcl1
          · intro x hxm
            rw [← h2] at hxm
            exact List.erase_subset _ _ hxm
          · intro hn
            rw [← h2]
            exact hn.erase sid
        · rw [mapInsert_of_ne _ _ _ _ hx] at hcl3
          exact ⟨r, hcl3, List.Subset.refl r, fun hn => hn⟩
    · rename_i u stO heq
      intro c t r hcl
      obtain ⟨rmid, hclmid, hsubmid, hndmid⟩ := ih stO res st2 h c t r hcl
      rcases unenroll_student_spec _ caller cn sid _ stO heq with
        ⟨-, hs⟩ | ⟨t1, r1, hcl1, -, -, -, hs⟩
      · subst hs
        exact ⟨rmid, hclmid, hsubmid, hndmid⟩
      · subst hs
        have hcl3 : mapInsert st.classes cn (t1, r1.erase sid) c =
          some (t, rmid) := hclmid
        by_cases hx : c = cn
        · rw [hx, mapInsert_self] at hcl3
          have h1 : t1 = t := congrArg Prod.fst (Option.some.inj hcl3)
          have h2 : r1.erase sid = rmid := congrArg Prod.snd (Option.some.inj hcl3)
          refine ⟨r1, ?_, ?_, ?_⟩
          · rw [hx, ← h1]
            exact hcl1
          · intro x hxm
            have hx2 : x ∈ rmid := hsubmid hxm
            rw [← h2] at hx2
            exact List.erase_subset _ _ hx2
          · intro hn
            have hn2 : rmid.Nodup := by
              rw [← h2]
              exact hn.erase sid
            exact hndmid hn2
        · rw [mapInsert_of_ne _ _ _ _ hx] at hcl3
          exact ⟨rmid, hcl3, hsubmid, hndmid⟩

/-- After a fully successful cascade over a duplicate-free class list that
covers every class whose roster lists the student, no roster lists the
student any more. -/
theorem cascade_ok_not_mem (caller sid : AccountId) :
    ∀ (L : List ClassName) (st st2 : Transcipt),
      cascade caller sid L st = some (Except.ok (), st2) →
      L.Nodup →
      (∀ c, c ∉ L → ∀ t r, st.classes c = some (t, r) → sid ∉ r) →
      (∀ c t r, st.classes c = some (t, r) → r.Nodup) →
      ∀ c t r, st2.classes c = some (t, r) → sid ∉ r := by
  intro L
  induction L with
  | nil =>
    intro st st2 h hnd hpre hros
    simp only [cascade, Option.some.injEq, Prod.mk.injEq] at h
    rw [← h.2]
    intro c t r hcl
    exact hpre c (List.not_mem_nil c) t r hcl
  | cons cn rest ih =>
    intro st st2 h hnd hpre hros
    unfold cascade at h
    split at h
    · exact Option.noConfusion h
    · rename_i e stE heq
      simp at h
    · rename_i u stO heq
      rcases unenroll_student_spec _ caller cn sid _ stO heq with
        ⟨hres, -⟩ | ⟨t1, r1, hcl1, -, -, -, hs⟩
      · rcases hres with hres | hres <;> exact Except.noConfusion hres
      · have hcl1s : st.classes cn = some (t1, r1) := hcl1
        apply ih stO st2 h (List.nodup_cons.mp hnd).2
        · intro c2 hc2 t2 r2 hclO hsid
          rw [hs] at hclO
          have hclO2 : mapInsert st.classes cn (t1, r1.erase sid) c2 =
            some (t2, r2) := hclO
          by_cases hx : c2 = cn
          · rw [hx, mapInsert_self] at hclO2
            have h2 : r1.erase sid = r2 := congrArg Prod.snd
              (Option.some.inj hclO2)
            rw [← h2] at hsid
            have hnd1 : r1.Nodup := hros cn t1 r1 hcl1s
            exact ((hnd1.mem_erase_iff).mp hsid).1 rfl
          · rw [mapInsert_of_ne _ _ _ _ hx] at hclO2
            have hc2full : c2 ∉ cn :: rest := by
              intro hcc
              rcases List.mem_cons.mp hcc with h3 | h3
              · exact hx h3
              · exact hc2 h3
            exact hpre c2 hc2full t2 r2 hclO2 hsid
        · intro c2 t2 r2 hclO
          rw [hs] at hclO
          have hclO2 : mapInsert st.classes cn (t1, r1.erase sid) c2 =
            some (t2, r2) := hclO
          by_cases hx : c2 = cn
          · rw [hx, mapInsert_self] at hclO2
            have h2 : r1.erase sid = r2 := congrArg Prod.snd
              (Option.some.inj hclO2)
            rw [← h2]
            exact (hros cn t1 r1 hcl1s).erase sid
          · rw [mapInsert_of_ne _ _ _ _ hx] at hclO2
            exact hros c2 t2 r2 hclO2

/-- When `remove_student` succeeds, no roster lists the removed student. -/
theorem remove_student_ok_roster (st : Transcipt) (caller sid : AccountId)
    (st2 : Transcipt) (hC : InvC st) (hR : InvR st)
    (h : remove_student st caller sid = some (Except.ok (), st2)) :
    ∀ c t r, st2.classes c = some (t, r) → sid ∉ r := by
  unfold remove_student at h
  split_ifs at h with h1 h2
  · split at h
    · exact Option.noConfusion h
    · rename_i L hL
      obtain ⟨hsubL, hallL⟩ :=
        collectClasses_spec st.classes sid st.class_list L hL
      split at h
      · exact Option.noConfusion h
      · rename_i e stE heq
        simp at h
      · rename_i u stO heq
        simp only [Option.some.injEq, Prod.mk.injEq] at h
        rw [← h.2]
        intro c t r hcl
        have hclO : stO.classes c = some (t, r) := hcl
        have hLnd : L.Nodup := List.Nodup.sublist hsubL hC.1
        have hpre : ∀ c2, c2 ∉ L → ∀ t2 r2,
            st.classes c2 = some (t2, r2) → sid ∉ r2 := by
          intro c2 hc2 t2 r2 hm2 hsid
          have hmemcl : c2 ∈ st.class_list := hC.2.1 c2 (by rw [hm2]; rfl)
          exact hc2 (hallL c2 hmemcl t2 r2 hm2 hsid)
        have hros : ∀ c2 t2 r2, st.classes c2 = some (t2, r2) → r2.Nodup :=
          fun c2 t2 r2 hm2 => (hR c2 t2 r2 hm2).1
        exact cascade_ok_not_mem caller sid L st stO heq hLnd hpre hros
          c t r hclO
  · simp at h
  · simp at h

/-- The roster invariant is preserved by `remove_student`, using class
coherence for the collection pass. -/
theorem invR_remove_student (st : Transcipt) (caller sid : AccountId)
    (res : Except Error Unit) (st2 : Transcipt)
    (h : remove_student st caller sid = some (res, st2))
    (hC : InvC st) (hR : InvR st) : InvR st2 := by
  unfold remove_student at h
  split_ifs at h with h1 h2
  · split at h
    · exact Option.noConfusion h
    · rename_i L hL
      obtain ⟨hsubL, hallL⟩ :=
        collectClasses_spec st.classes sid st.class_list L hL
      split at h
      · exact Option.noConfusion h
      · rename_i e stE heq
        simp only [Option.some.injEq, Prod.mk.injEq] at h
        rw [← h.2]
        intro c t r hcl
        obtain ⟨r0, hcl0, hsub0, hnd0⟩ :=
          cascade_classes_sub caller sid L st _ stE heq c t r hcl
        obtain ⟨hndr, hsubr⟩ := hR c t r0 hcl0
        refine ⟨hnd0 hndr, ?_⟩
        intro x hx
        have hxs : x ∈ st.students := hsubr x (hsub0 hx)
        show x ∈ stE.students
        rw [(cascade_fixed caller sid L st _ stE heq).1]
        exact hxs
      · rename_i u stO heq
        simp only [Option.some.injEq, Prod.mk.injEq] at h
        rw [← h.2]
        intro c t r hcl
        have hclO : stO.classes c = some (t, r) := hcl
        have hLnd : L.Nodup := List.Nodup.sublist hsubL hC.1
        have hpre : ∀ c2, c2 ∉ L → ∀ t2 r2,
            st.classes c2 = some (t2, r2) → sid ∉ r2 := by
          intro c2 hc2 t2 r2 hm2 hsid
          have hmemcl : c2 ∈ st.class_list := hC.2.1 c2 (by rw [hm2]; rfl)
          exact hc2 (hallL c2 hmemcl t2 r2 hm2 hsid)
        have hros : ∀ c2 t2 r2, st.classes c2 = some (t2, r2) → r2.Nodup :=
          fun c2 t2 r2 hm2 => (hR c2 t2 r2 hm2).1
        have hnotmem : sid ∉ r :=
          cascade_ok_not_mem caller sid L st stO heq hLnd hpre hros c t r hclO
        obtain ⟨r0, hcl0, hsub0, hnd0⟩ :=
          cascade_classes_sub caller sid L st _ stO heq c t r hclO
        obtain ⟨hndr, hsubr⟩ := hR c t r0 hcl0
        refine ⟨hnd0 hndr, ?_⟩
        intro x hx
        have hxs : x ∈ st.students := hsubr x (hsub0 hx)
        have hxne : x ≠ sid := fun hcontra => hnotmem (hcontra ▸ hx)
        show x ∈ stO.students.erase sid
        rw [(cascade_fixed caller sid L st _ stO heq).1]
        exact (List.mem_erase_of_ne hxne).mpr hxs
  · simp only [Option.some.injEq, Prod.mk.injEq] at h
    rw [← h.2]
    exact hR
  · simp only [Option.some.injEq, Prod.mk.injEq] at h
    rw [← h.2]
    exact hR

/-- Restriction under which rosters stay duplicate-free: `add_classes` is
only called with duplicate-free student lists.  All other commands are
unrestricted. -/
def goodCmd : Cmd → Prop
  | Cmd.addClasses _ _ _ ss => ss.Nodup
  | _ => True

instance goodCmdDecidable : (cm : Cmd) → Decidable (goodCmd cm)
  | Cmd.addTeacher _ _ => inferInstanceAs (Decidable True)
  | Cmd.addStudent _ _ => inferInstanceAs (Decidable True)
  | Cmd.addAdmins _ _ => inferInstanceAs (Decidable True)
  | Cmd.addClasses _ _ _ ss => inferInstanceAs (Decidable ss.Nodup)
  | Cmd.addScore _ _ _ _ => inferInstanceAs (Decidable True)
  | Cmd.addAccess _ _ _ => inferInstanceAs (Decidable True)
  | Cmd.removeAccess _ _ _ => inferInstanceAs (Decidable True)
  | Cmd.removeAdmins _ _ => inferInstanceAs (Decidable True)
  | Cmd.removeClasses _ _ => inferInstanceAs (Decidable True)
  | Cmd.unenrollStudent _ _ _ => inferInstanceAs (Decidable True)
  | Cmd.enrollStudent _ _ _ => inferInstanceAs (Decidable True)
  | Cmd.changeTeacher _ _ _ => inferInstanceAs (Decidable True)
  | Cmd.removeTeacher _ _ => inferInstanceAs (Decidable True)
  | Cmd.removeStudent _ _ => inferInstanceAs (Decidable True)

/-- The roster invariant is preserved by every single call whose
`add_classes` argument list, if any, is duplicate-free. -/
theorem stepCmd_invR (st : Transcipt) (cm : Cmd) (hg : goodCmd cm)
    (hC : InvC st) (hR : InvR st) : InvR (stepCmd st cm) := by
  cases cm with
  | addTeacher caller id =>
    cases hx : add_teacher st caller id with
    | none => simpa [stepCmd, outState, hx] using hR
    | some p =>
      obtain ⟨r, s2⟩ := p
      simp only [stepCmd, outState, hx]
      exact invR_add_teacher st caller id r s2 hx hR
  | addStudent caller id =>
    cases hx : add_student st caller id with
    | none => simpa [stepCmd, outState, hx] using hR
    | some p =>
      obtain ⟨r, s2⟩ := p
      simp only [stepCmd, outState, hx]
      exact invR_add_student st caller id r s2 hx hR
  | addAdmins caller id =>
    cases hx : add_admins st caller id with
    | none => simpa [stepCmd, outState, hx] using hR
    | some p =>
      obtain ⟨r, s2⟩ := p
      simp only [stepCmd, outState, hx]
      exact invR_add_admins st caller id r s2 hx hR
  | addClasses caller name t ss =>
    cases hx : add_classes st caller name t ss with
    | none => simpa [stepCmd, outState, hx] using hR
    | some p =>
      obtain ⟨r, s2⟩ := p
      simp only [stepCmd, outState, hx]
      exact invR_add_classes st caller name t ss r s2 hx hg hR
  | addScore caller name sid g =>
    cases hx : add_score st caller name sid g with
    | none => simpa [stepCmd, outState, hx] using hR
    | some p =>
      obtain ⟨r, s2⟩ := p
      simp only [stepCmd, outState, hx]
      exact invR_add_score st caller name sid g r s2 hx hR
  | addAccess caller sid g =>
    cases hx : add_accessstudents st caller sid g with
    | none => simpa [stepCmd, outState, hx] using hR
    | some p =>
      obtain ⟨r, s2⟩ := p
      simp only [stepCmd, outState, hx]
      exact invR_add_accessstudents st caller sid g r s2 hx hR
  | removeAccess caller sid g =>
    cases hx : remove_accessstudents st caller sid g with
    | none => simpa [stepCmd, outState, hx] using hR
    | some p =>
      obtain ⟨r, s2⟩ := p
      simp only [stepCmd, outState, hx]
      exact invR_remove_accessstudents st caller sid g r s2 hx hR
  | removeAdmins caller id =>
    cases hx : remove_admins st caller id with
    | none => simpa [stepCmd, outState, hx] using hR
    | some p =>
      obtain ⟨r, s2⟩ := p
      simp only [stepCmd, outState, hx]
      exact invR_remove_admins st caller id r s2 hx hR
  | removeClasses caller name =>
    cases hx : remove_classes st caller name with
    | none => simpa [stepCmd, outState, hx] using hR
    | some p =>
      obtain ⟨r, s2⟩ := p
      simp only [stepCmd, outState, hx]
      exact invR_remove_classes st caller name r s2 hx hR
  | unenrollStudent caller name sid =>
    cases hx : unenroll_student st caller name sid with
    | none => simpa [stepCmd, outState, hx] using hR
    | some p =>
      obtain ⟨r, s2⟩ := p
      simp only [stepCmd, outState, hx]
      exact invR_unenroll_student st caller name sid r s2 hx hR
  | enrollStudent caller name sid =>
    cases hx : enroll_student st caller name sid with
    | none => simpa [stepCmd, outState, hx] using hR
    | some p =>
      obtain ⟨r, s2⟩ := p
      simp only [stepCmd, outState, hx]
      exact invR_enroll_student st caller name sid r s2 hx hR
  | changeTeacher caller name t =>
    cases hx : change_teacher st caller name t with
    | none => simpa [stepCmd, outState, hx] using hR
    | some p =>
      obtain ⟨r, s2⟩ := p
      simp only [stepCmd, outState, hx]
      exact invR_change_teacher st caller name t r s2 hx hR
  | removeTeacher caller id =>
    cases hx : remove_teacher st caller id with
    | none => simpa [stepCmd, outState, hx] using hR
    | some p =>
      obtain ⟨r, s2⟩ := p
      simp only [stepCmd, outState, hx]
      exact invR_remove_teacher st caller id r s2 hx hR
  | removeStudent caller id =>
    cases hx : remove_student st caller id with
    | none => simpa [stepCmd, outState, hx] using hR
    | some p =>
      obtain ⟨r, s2⟩ := p
      simp only [stepCmd, outState, hx]
      exact invR_remove_student st caller id r s2 hx hC hR

/-- Both invariants hold in every state reachable with duplicate-free
`add_classes` argument lists. -/
theorem runCmds_invCR (cmds : List Cmd) :
    ∀ st : Transcipt, (∀ cm ∈ cmds, goodCmd cm) → InvC st → InvR st →
      InvC (runCmds st cmds) ∧ InvR (runCmds st cmds) := by
  induction cmds with
  | nil =>
    intro st hg hC hR
    simpa [runCmds] using ⟨hC, hR⟩
  | cons cm rest ih =>
    intro st hg hC hR
    simp only [runCmds, List.foldl_cons]
    exact ih (stepCmd st cm) (fun c hc => hg c (List.mem_cons_of_mem _ hc))
      (stepCmd_invC st cm hC)
      (stepCmd_invR st cm (hg cm (List.mem_cons_self _ _)) hC hR)


/-- C4 state before the offending command: class "C" was created with the
duplicate roster [2, 2]. -/
def c4pre : Transcipt :=
  runCmds (Transcipt.new 0)
    [Cmd.addTeacher 0 1, Cmd.addStudent 0 2, Cmd.addClasses 0 "C" 1 [2, 2]]

/-- C4 state after `remove_student(2)` succeeds on the duplicate roster. -/
def c4state : Transcipt := outState c4pre (remove_student c4pre 0 2)

/-- C4 counterexample: with `add_classes` called on the roster [2, 2],
`remove_student(2)` succeeds but erases only the first occurrence of 2 from
the roster, leaving student 2 on class "C" while it is gone from the
student set. -/
theorem c4_counterexample :
    remove_student c4pre 0 2 = some (Except.ok (), c4state) ∧
    c4state.classes "C" = some (1, [2]) ∧
    2 ∉ c4state.students :=
  ⟨rfl, by decide, by decide⟩

/-- C4 amended: provided every `add_classes` call receives a duplicate-free
student list, every roster member is a registered student in every
reachable state; and on such states a successful `remove_student` leaves
the student on no roster. -/
theorem c4_roster_membership_amended :
    (∀ (d : AccountId) (cmds : List Cmd), (∀ cm ∈ cmds, goodCmd cm) →
      ∀ c t r, (runCmds (Transcipt.new d) cmds).classes c = some (t, r) →
        ∀ s ∈ r, s ∈ (runCmds (Transcipt.new d) cmds).students) ∧
    (∀ (st : Transcipt) (caller sid : AccountId) (st2 : Transcipt),
      InvC st → InvR st →
      remove_student st caller sid = some (Except.ok (), st2) →
      ∀ c t r, st2.classes c = some (t, r) → sid ∉ r) := by
  constructor
  · intro d cmds hg c t r hcl s hs
    exact ((runCmds_invCR cmds (Transcipt.new d) hg (invC_new d)
      (invR_new d)).2 c t r hcl).2 s hs
  · intro st caller sid st2 hC hR h
    exact remove_student_ok_roster st caller sid st2 hC hR h

/-- C4 witness: student 2, on the roster of "C" in the sample state reached
with duplicate-free rosters, is a registered student there. -/
theorem c4_roster_membership_amended_witness :
    2 ∈ (runCmds (Transcipt.new 0)
      [Cmd.addTeacher 0 1, Cmd.addStudent 0 2,
        Cmd.addClasses 0 "C" 1 [2]]).students :=
  c4_roster_membership_amended.1 0
    [Cmd.addTeacher 0 1, Cmd.addStudent 0 2, Cmd.addClasses 0 "C" 1 [2]]
    (by decide) "C" 1 [2] (by decide) 2 (by decide)

end Transcript
